import Mathlib

/-!
Shallow embedding of the permissive JSON reader (`OurReader` in
`src/lib_json/json_reader.cpp`, configuration defaults from
`CharReaderBuilder::setDefaults`).  The document is a list of bytes
(`List Nat`, each < 256 in practice); the byte cursor is a `Nat` offset.
Machine integers of the number decoder are modelled as `Nat`/`Int` with
explicit wrapping where the C++ semantics wraps.  Fallible parsing code
returns `Except Halt`, where `Halt.fatal` models `throwRuntimeError` and
`Halt.outOfFuel` is the artifact of the explicit fuel that replaces the
C++ loops / recursion (every loop of the source provably makes progress,
so any sufficiently large fuel yields the source behaviour).

Values are modelled without their comment annotations (`setComment` is a
no-op on the value tree): no verified property inspects a stored comment.
The comment-accumulation state (`commentsBefore_`, `lastValueEnd_`) that
drives control flow is modelled faithfully.  Object members are stored as
an association list in insertion order; no verified property depends on
the `std::map` key ordering of the external `Json::Value`.
-/

/-- Bytes of an ASCII string, for writing concrete documents. -/
def bytes (s : String) : List Nat := s.data.map Char.toNat

/-- Token kinds, mirroring `OurReader::TokenType`. -/
inductive TokType where
  | endOfStream
  | objectBegin
  | objectEnd
  | arrayBegin
  | arrayEnd
  | stringTok
  | number
  | trueTok
  | falseTok
  | nullTok
  | nanTok
  | posInf
  | negInf
  | arraySeparator
  | memberSeparator
  | comment
  | errorTok
deriving DecidableEq, Repr

/-- A token: kind plus byte offsets relative to the document begin. -/
structure Token where
  type : TokType
  offsetStart : Nat
  offsetEnd : Nat
deriving DecidableEq, Repr

/-- The feature bag consumed by the reader (`class Features` plus the
parser-visible `collectComments`, which is passed to `parse` separately
in the source and is therefore kept in `Ctx` below). -/
structure Features where
  allowComments : Bool
  strictRoot : Bool
  allowDroppedNullPlaceholders : Bool
  allowNumericKeys : Bool
  allowSingleQuotes : Bool
  failIfExtra : Bool
  rejectDupKeys : Bool
  allowSpecialFloats : Bool
  stackLimit : Int
deriving DecidableEq, Repr

/-- Defaults set by `CharReaderBuilder::setDefaults`. -/
def defaultFeatures : Features :=
  { allowComments := true
    strictRoot := false
    allowDroppedNullPlaceholders := false
    allowNumericKeys := false
    allowSingleQuotes := false
    failIfExtra := false
    rejectDupKeys := false
    allowSpecialFloats := false
    stackLimit := 1000 }

/-- Strict preset set by `CharReaderBuilder::strictMode`. -/
def strictFeatures : Features :=
  { allowComments := false
    strictRoot := true
    allowDroppedNullPlaceholders := false
    allowNumericKeys := false
    allowSingleQuotes := false
    failIfExtra := true
    rejectDupKeys := true
    allowSpecialFloats := false
    stackLimit := 1000 }

/-- Read-only context of one parse: the document and configuration.
`collectComments` is the field `collectComments_` after the force-off
rule applied at the top of `OurReader::parse`. -/
structure Ctx where
  doc : List Nat
  feats : Features
  collectComments : Bool

/-- The mutable tokenizer-visible state: cursor plus the comment channel
(`current_`, `commentsBefore_`, `lastValueEnd_`). -/
structure Cursor where
  pos : Nat
  commentsBefore : List Nat
  lastValueEnd : Option Nat
deriving DecidableEq, Repr

/-- One entry of the error journal (`ErrorInfo`): primary location,
message, optional secondary location (line 0 meaning "none", as in the
source's default-constructed `ErrorLocation`). -/
structure ErrEntry where
  line : Nat
  column : Nat
  message : String
  extraLine : Nat
  extraColumn : Nat
deriving DecidableEq, Repr

/-- Parser state: cursor plus error journal. -/
structure PState where
  cur : Cursor
  errors : List ErrEntry
deriving DecidableEq, Repr

/-- Abnormal termination: `fatal` models `throwRuntimeError`;
`outOfFuel` is the fuel artifact (unreachable with sufficient fuel). -/
inductive Halt where
  | fatal (msg : String)
  | outOfFuel
deriving DecidableEq, Repr

mutual
inductive JPayload where
  | nullV : JPayload
  | boolV : Bool → JPayload
  | intV : Int → JPayload
  | uintV : Nat → JPayload
  | doubleV : List Nat → JPayload
  | nanV : JPayload
  | posInfV : JPayload
  | negInfV : JPayload
  | strV : List Nat → JPayload
  | arrV : List JVal → JPayload
  | objV : List (List Nat × JVal) → JPayload
inductive JVal where
  | mk : JPayload → Int → Int → JVal
end

/-- Payload of a value. -/
def JVal.payload : JVal → JPayload
  | .mk p _ _ => p

/-- `getOffsetStart`. -/
def JVal.offsetStart : JVal → Int
  | .mk _ os _ => os

/-- `getOffsetLimit`. -/
def JVal.offsetLimit : JVal → Int
  | .mk _ _ ol => ol

/-- `setOffsetLimit`. -/
def JVal.withOffsetLimit : JVal → Int → JVal
  | .mk p os _, ol => .mk p os ol

/-- `Value::isArray`. -/
def JVal.isArray : JVal → Bool
  | .mk (.arrV _) _ _ => true
  | _ => false

/-- `Value::isObject`. -/
def JVal.isObject : JVal → Bool
  | .mk (.objV _) _ _ => true
  | _ => false

/-- Values with the byte offsets erased, for stating results. -/
inductive PVal where
  | nullV : PVal
  | boolV : Bool → PVal
  | intV : Int → PVal
  | uintV : Nat → PVal
  | doubleV : List Nat → PVal
  | nanV : PVal
  | posInfV : PVal
  | negInfV : PVal
  | strV : List Nat → PVal
  | arrV : List PVal → PVal
  | objV : List (List Nat × PVal) → PVal

/-- Offset erasure, structural on an explicit depth bound (values of
depth beyond the bound erase to null; every stated result is far
shallower than the bound used). -/
def plainD : Nat → JVal → PVal
  | 0, _ => PVal.nullV
  | d + 1, .mk p _ _ =>
    match p with
    | .nullV => .nullV
    | .boolV b => .boolV b
    | .intV i => .intV i
    | .uintV n => .uintV n
    | .doubleV r => .doubleV r
    | .nanV => .nanV
    | .posInfV => .posInfV
    | .negInfV => .negInfV
    | .strV s => .strV s
    | .arrV es => .arrV (es.map (plainD d))
    | .objV ms => .objV (ms.map (fun m => (m.1, plainD d m.2)))

/-- Offset erasure at the depth bound used in all stated results. -/
def JVal.plain (v : JVal) : PVal := plainD 100 v

/-! ## ByteCursor primitives -/

/-- `getNextChar`: returns `*current_++`, or 0 without advancing at end. -/
def getNextChar (doc : List Nat) (pos : Nat) : Nat × Nat :=
  if pos < doc.length then (doc.getD pos 0, pos + 1) else (0, pos)

/-- Is a byte one of space, tab, CR, LF? -/
def isSpaceByte (c : Nat) : Bool := c = 32 ∨ c = 9 ∨ c = 13 ∨ c = 10

/-- Worker for `skipSpaces`, structural on the remaining bytes. -/
def skipSpacesL : List Nat → Nat → Nat
  | [], pos => pos
  | c :: rest, pos => if isSpaceByte c then skipSpacesL rest (pos + 1) else pos

/-- `skipSpaces`: advance while the current byte is space/tab/CR/LF. -/
def skipSpaces (doc : List Nat) (pos : Nat) : Nat :=
  skipSpacesL (doc.drop pos) pos

/-- Is a byte an ASCII digit? -/
def isDigitByte (c : Nat) : Bool := 48 ≤ c ∧ c ≤ 57

/-- Worker advancing past a run of digits. -/
def digitRunL : List Nat → Nat → Nat
  | [], pos => pos
  | c :: rest, pos => if isDigitByte c then digitRunL rest (pos + 1) else pos

/-- First position at or after `pos` holding a non-digit (capped at end). -/
def digitRunEnd (doc : List Nat) (pos : Nat) : Nat :=
  digitRunL (doc.drop pos) pos

/-- `match(pattern, patternLength)`: compare and consume on success. -/
def matchPat (doc : List Nat) (pos : Nat) (pat : List Nat) : Bool × Nat :=
  if doc.length - pos < pat.length then (false, pos)
  else if (doc.drop pos).take pat.length = pat then (true, pos + pat.length)
  else (false, pos)

/-- `containsNewLine` over the byte range `[b, e)` of the document. -/
def containsNewLineR (doc : List Nat) (b e : Nat) : Bool :=
  ((doc.drop b).take (e - b)).any (fun c => c = 10 ∨ c = 13)

/-- `normalizeEOL`: CR and CRLF each become a single LF. -/
def normalizeEOLBytes : List Nat → List Nat
  | [] => []
  | 13 :: 10 :: rest => 10 :: normalizeEOLBytes rest
  | 13 :: rest => 10 :: normalizeEOLBytes rest
  | c :: rest => c :: normalizeEOLBytes rest

/-! ## Location map (`getLocationLineAndColumn`) -/

/-- The walk of `getLocationLineAndColumn`: scans bytes up to `endPos`,
tracking the last line start and the number of line terminators seen.
`fuel` bounds iterations (each consumes at least one byte, so
`fuel = endPos` is always enough).  Returns (lastLineStart, count). -/
def glacGo (doc : List Nat) (endPos : Nat) : Nat → Nat → Nat → Nat → Nat × Nat
  | 0, _, lls, line => (lls, line)
  | fuel + 1, current, lls, line =>
    if current < endPos then
      let c := doc.getD current 0
      let cur1 := current + 1
      if c = 13 then
        if doc.getD cur1 0 = 10 then glacGo doc endPos fuel (cur1 + 1) (cur1 + 1) (line + 1)
        else glacGo doc endPos fuel cur1 cur1 (line + 1)
      else if c = 10 then glacGo doc endPos fuel cur1 cur1 (line + 1)
      else glacGo doc endPos fuel cur1 lls line
    else (lls, line)

/-- `getLocationLineAndColumn(offset)`: 1-based (line, column).  The C++
loop condition `current < end && current != end_` stops at
`min offset (length doc)`; the final column is
`int(end - lastLineStart) + 1`, which for the one reachable negative case
(`lastLineStart = offset + 1`) yields 0, matching `Nat` subtraction here. -/
def getLocationLineAndColumn (doc : List Nat) (offset : Nat) : Nat × Nat :=
  let endPos := min offset doc.length
  let (lls, line) := glacGo doc endPos endPos 0 0 0
  (line + 1, offset + 1 - lls)

/-- `addError`: append an entry located at the token's start offset, with
an optional secondary offset. -/
def addError (ctx : Ctx) (msg : String) (tok : Token) (extra : Option Nat)
    (st : PState) : PState :=
  let loc := getLocationLineAndColumn ctx.doc tok.offsetStart
  let exloc := match extra with
    | some e => getLocationLineAndColumn ctx.doc e
    | none => (0, 0)
  { st with errors := st.errors ++
      [{ line := loc.1, column := loc.2, message := msg,
         extraLine := exloc.1, extraColumn := exloc.2 }] }

/-! ## Tokenizer -/

/-- Loop of `readCStyleComment`: scan forward to the `*` of a closing
`*/` (or to the end); returns the stop position. -/
def cstyleGo (doc : List Nat) : Nat → Nat → Nat
  | 0, pos => pos
  | fuel + 1, pos =>
    if pos + 1 < doc.length then
      let c := doc.getD pos 0
      if c = 42 ∧ doc.getD (pos + 1) 0 = 47 then pos + 1
      else cstyleGo doc fuel (pos + 1)
    else pos

/-- `readCStyleComment`. -/
def readCStyleComment (doc : List Nat) (pos : Nat) : Bool × Nat :=
  let p := cstyleGo doc (doc.length - pos) pos
  let (c, p') := getNextChar doc p
  (c = 47, p')

/-- Loop of `readCppStyleComment`: consume to LF or CR (CRLF as one). -/
def cppGo (doc : List Nat) : Nat → Nat → Nat
  | 0, pos => pos
  | fuel + 1, pos =>
    if pos < doc.length then
      let c := doc.getD pos 0
      let p1 := pos + 1
      if c = 10 then p1
      else if c = 13 then (if p1 < doc.length ∧ doc.getD p1 0 = 10 then p1 + 1 else p1)
      else cppGo doc fuel p1
    else pos

/-- `readCppStyleComment` (always succeeds). -/
def readCppStyleComment (doc : List Nat) (pos : Nat) : Bool × Nat :=
  (true, cppGo doc (doc.length - pos) pos)

/-- Loop of `readString` / `readStringSingleQuote`: scan to the closing
quote `q`, a backslash always consuming one extra byte.  Returns whether
the closing quote was found, and the stop position. -/
def rstrGo (doc : List Nat) (q : Nat) : Nat → Nat → Bool × Nat
  | 0, pos => (false, pos)
  | fuel + 1, pos =>
    if pos < doc.length then
      let c := doc.getD pos 0
      let p1 := pos + 1
      if c = 92 then
        let p2 := if p1 < doc.length then p1 + 1 else p1
        rstrGo doc q fuel p2
      else if c = q then (true, p1)
      else rstrGo doc q fuel p1
    else (false, pos)

/-- `readString` (double-quoted raw scan). -/
def readStringScan (doc : List Nat) (pos : Nat) : Bool × Nat :=
  rstrGo doc 34 (doc.length - pos) pos

/-- `readStringSingleQuote` (single-quoted raw scan). -/
def readStringSingleQuoteScan (doc : List Nat) (pos : Nat) : Bool × Nat :=
  rstrGo doc 39 (doc.length - pos) pos

/-- `readNumber(checkInf)`: consume the permissive numeric lexeme
(digits, optional fraction, optional exponent).  With `checkInf`, an
initial `I` consumes one byte and reports failure (the `-Infinity`
disambiguation). -/
def readNumberScan (doc : List Nat) (checkInf : Bool) (pos : Nat) : Bool × Nat :=
  if checkInf ∧ pos < doc.length ∧ doc.getD pos 0 = 73 then (false, pos + 1)
  else
    let p1 := digitRunEnd doc pos
    let p2 := if p1 < doc.length ∧ doc.getD p1 0 = 46 then digitRunEnd doc (p1 + 1) else p1
    let p3 :=
      if p2 < doc.length ∧ (doc.getD p2 0 = 101 ∨ doc.getD p2 0 = 69) then
        let ps := if p2 + 1 < doc.length ∧ (doc.getD (p2 + 1) 0 = 43 ∨ doc.getD (p2 + 1) 0 = 45)
          then p2 + 2 else p2 + 1
        digitRunEnd doc ps
      else p2
    (true, p3)

/-- `readComment`: the first slash is already consumed (`pos` is past it).
Consumes the comment body and, when collecting, runs the placement
heuristic and the `addComment` side effect (attachment to the last value
is a no-op on the value tree; `Before` comments accumulate in
`commentsBefore`). -/
def readComment (ctx : Ctx) (cur : Cursor) (pos : Nat) : Bool × Cursor :=
  let doc := ctx.doc
  let commentBegin := pos - 1
  let (c, p1) := getNextChar doc pos
  let (successful, p2) :=
    if c = 42 then readCStyleComment doc p1
    else if c = 47 then readCppStyleComment doc p1
    else (false, p1)
  if ¬ successful then (false, { cur with pos := p2 })
  else
    if ctx.collectComments then
      let placeAfter : Bool :=
        match cur.lastValueEnd with
        | some lve =>
          !containsNewLineR doc lve commentBegin &&
            (c != 42 || !containsNewLineR doc commentBegin p2)
        | none => false
      let normalized := normalizeEOLBytes ((doc.drop commentBegin).take (p2 - commentBegin))
      if placeAfter then
        -- commentAfterOnSameLine: attached to `lastValue_` (no-op on the tree)
        (true, { cur with pos := p2 })
      else
        (true, { cur with pos := p2, commentsBefore := cur.commentsBefore ++ normalized })
    else (true, { cur with pos := p2 })

/-- The comment case of the `readToken` switch (shared by `/` and by the
fall-through of `'` when single quotes are disabled). -/
def readTokenCommentCase (ctx : Ctx) (cur : Cursor) (pos : Nat) : TokType × Bool × Cursor :=
  (TokType.comment, (readComment ctx cur pos).1, (readComment ctx cur pos).2)

/-- The `switch` dispatch of `readToken` on the first byte `c` (`pos` is
the cursor just past `c`): kind, success flag, and resulting cursor.
Mirrors the source's cases, including the fall-through of `'` into the
comment case when single quotes are disabled. -/
def readTokenDispatch (ctx : Ctx) (cur : Cursor) (c : Nat) (pos : Nat) :
    TokType × Bool × Cursor :=
  let doc := ctx.doc
  match c with
  | 123 => (TokType.objectBegin, true, { cur with pos := pos })
  | 125 => (TokType.objectEnd, true, { cur with pos := pos })
  | 91 => (TokType.arrayBegin, true, { cur with pos := pos })
  | 93 => (TokType.arrayEnd, true, { cur with pos := pos })
  | 34 =>
    (TokType.stringTok, (readStringScan doc pos).1,
      { cur with pos := (readStringScan doc pos).2 })
  | 39 =>
    if ctx.feats.allowSingleQuotes then
      (TokType.stringTok, (readStringSingleQuoteScan doc pos).1,
        { cur with pos := (readStringSingleQuoteScan doc pos).2 })
    else readTokenCommentCase ctx cur pos
  | 47 => readTokenCommentCase ctx cur pos
  | 48 | 49 | 50 | 51 | 52 | 53 | 54 | 55 | 56 | 57 =>
    (TokType.number, true, { cur with pos := (readNumberScan doc false pos).2 })
  | 45 =>
    let p := (readNumberScan doc true pos).2
    if (readNumberScan doc true pos).1 then (TokType.number, true, { cur with pos := p })
    else
      if ctx.feats.allowSpecialFloats then
        (TokType.negInf, (matchPat doc p (bytes "nfinity")).1,
          { cur with pos := (matchPat doc p (bytes "nfinity")).2 })
      else (TokType.negInf, false, { cur with pos := p })
  | 116 =>
    (TokType.trueTok, (matchPat doc pos (bytes "rue")).1,
      { cur with pos := (matchPat doc pos (bytes "rue")).2 })
  | 102 =>
    (TokType.falseTok, (matchPat doc pos (bytes "alse")).1,
      { cur with pos := (matchPat doc pos (bytes "alse")).2 })
  | 110 =>
    (TokType.nullTok, (matchPat doc pos (bytes "ull")).1,
      { cur with pos := (matchPat doc pos (bytes "ull")).2 })
  | 78 =>
    if ctx.feats.allowSpecialFloats then
      (TokType.nanTok, (matchPat doc pos (bytes "aN")).1,
        { cur with pos := (matchPat doc pos (bytes "aN")).2 })
    else (TokType.nanTok, false, { cur with pos := pos })
  | 73 =>
    if ctx.feats.allowSpecialFloats then
      (TokType.posInf, (matchPat doc pos (bytes "nfinity")).1,
        { cur with pos := (matchPat doc pos (bytes "nfinity")).2 })
    else (TokType.posInf, false, { cur with pos := pos })
  | 44 => (TokType.arraySeparator, true, { cur with pos := pos })
  | 58 => (TokType.memberSeparator, true, { cur with pos := pos })
  | 0 => (TokType.endOfStream, true, { cur with pos := pos })
  | _ => (TokType.errorTok, false, { cur with pos := pos })

/-- `readToken`. Always produces a token; lexical failure yields kind
`errorTok`. -/
def readToken (ctx : Ctx) (cur : Cursor) : Token × Cursor :=
  let doc := ctx.doc
  let start := skipSpaces doc cur.pos
  let c := (getNextChar doc start).1
  let pos := (getNextChar doc start).2
  let r := readTokenDispatch ctx cur c pos
  let ty := if r.2.1 then r.1 else TokType.errorTok
  ({ type := ty, offsetStart := start, offsetEnd := r.2.2.pos }, r.2.2)

/-! ## Number decoder -/

/-- Raw byte span of a token. -/
def tokenRaw (ctx : Ctx) (tok : Token) : List Nat :=
  (ctx.doc.drop tok.offsetStart).take (tok.offsetEnd - tok.offsetStart)

/-- `Value::maxLargestUInt`.  Modelled from the spec: the `Json::Value`
integer-width constants live in `value.h`, which is not among the
sources; §4.4 prescribes an unsigned accumulator of the platform's
widest (64-bit) integer width with maximum `maximum unsigned integer`. -/
def maxLargestUInt : Nat := 2 ^ 64 - 1

/-- `Value::LargestUInt(-Value::minLargestInt)`.  Modelled from the
spec (§4.4): allowed magnitude `|minimum signed integer|` when negative. -/
def minLargestIntMagnitude : Nat := 2 ^ 63

/-- `Value::maxInt` as used in `decodeNumber`'s classification.
Modelled from the spec: `value.h` is not among the sources; §4.4 says a
non-negative result is signed exactly when "value fits in the signed
positive range" of the same widest (64-bit) signed integer, so the
bound is 2^63 - 1. -/
def valueMaxInt : Nat := 2 ^ 63 - 1

/-- Wrap an integer into two's-complement 64-bit range, the semantics of
the C++ conversions/negation on `Value::LargestInt`. -/
def i64wrap (i : Int) : Int := (i + 2 ^ 63) % 2 ^ 64 - 2 ^ 63

/-- The digit-accumulation loop of `decodeNumber(Token&, Value&)`.
`none` means "defer to the double path".  The C++ accumulator is
`uint64`; the overflow guard makes `value * 10 + digit ≤ max < 2^64` on
every path that executes it, so plain `Nat` arithmetic is faithful. -/
def decNumLoop (maxIntegerValue threshold : Nat) : List Nat → Nat → Option Nat
  | [], value => some value
  | c :: rest, value =>
    if ¬ isDigitByte c then none
    else
      let digit := c - 48
      if value ≥ threshold ∧
          (value > threshold ∨ rest ≠ [] ∨ digit > maxIntegerValue % 10) then none
      else decNumLoop maxIntegerValue threshold rest (value * 10 + digit)

/-- Integer path of `decodeNumber(Token&, Value&)` on the token's raw
bytes; `none` defers to the double path. -/
def decodeNumberPayload (raw : List Nat) : Option JPayload :=
  let isNegative := raw.head? = some 45
  let digits := if isNegative then raw.tail else raw
  let maxIntegerValue := if isNegative then minLargestIntMagnitude else maxLargestUInt
  let threshold := maxIntegerValue / 10
  match decNumLoop maxIntegerValue threshold digits 0 with
  | none => none
  | some value =>
    if isNegative then some (.intV (i64wrap (-(i64wrap (value : Int)))))
    else if value ≤ valueMaxInt then some (.intV (i64wrap (value : Int)))
    else some (.uintV value)

/-- Bytes of an ASCII string rendered from a byte list (for messages). -/
def strOfBytes (l : List Nat) : String := String.mk (l.map Char.ofNat)

/-- Modelled from the spec: the host float-parse primitive
(`sscanf("%lf")`, with `fixNumericLocaleInput` a no-op in the C locale)
is external; §4.4: it "accepts decimal notation with optional exponent".
It succeeds when the bytes start (after an optional sign) with a digit,
or with `.` followed by a digit. -/
def doubleLitOk (s : List Nat) : Bool :=
  let s1 := match s.head? with
    | some 43 => s.tail
    | some 45 => s.tail
    | _ => s
  match s1.head? with
  | some c =>
    if isDigitByte c then true
    else if c = 46 then
      match s1.tail.head? with
      | some c2 => isDigitByte c2
      | none => false
    else false
  | none => false

/-- `decodeDouble(Token&, Value&)`.  The decoded numeric value carries
the raw literal (floating-point values are not shallow-embedded; no
verified property inspects one).  `token.offsetEnd_ - token.offsetStart_`
cannot be negative with `Nat` offsets, so the "Unable to parse token
length" guard is unreachable in the model. -/
def decodeDoubleVal (ctx : Ctx) (tok : Token) (st : PState) :
    Bool × Option JPayload × PState :=
  let raw := tokenRaw ctx tok
  if doubleLitOk raw then (true, some (.doubleV raw), st)
  else (false, none,
    addError ctx ("\x27" ++ strOfBytes raw ++ "\x27 is not a number.") tok none st)

/-- `decodeNumber(Token&, Value&)`. -/
def decodeNumberVal (ctx : Ctx) (tok : Token) (st : PState) :
    Bool × Option JPayload × PState :=
  match decodeNumberPayload (tokenRaw ctx tok) with
  | some p => (true, some p, st)
  | none => decodeDoubleVal ctx tok st

/-- Install a decoded payload with the token's offsets
(`swapPayload` + `setOffsetStart` + `setOffsetLimit`). -/
def installPayload (tok : Token) (p : JPayload) : JVal :=
  .mk p (tok.offsetStart : Int) (tok.offsetEnd : Int)

/-- The untouched current-value slot (a freshly allocated null). -/
def nullSlot : JVal := .mk .nullV 0 0

/-- `decodeNumber(Token&)`: decode and install in the current value; on
failure the slot is left untouched (the error is already journaled). -/
def decodeNumberInstall (ctx : Ctx) (tok : Token) (st : PState) :
    Bool × JVal × PState :=
  match decodeNumberVal ctx tok st with
  | (true, some p, st') => (true, installPayload tok p, st')
  | (_, _, st') => (false, nullSlot, st')

/-! ## String decoder -/

/-- Value of one hex digit (`0-9`, `a-f`, `A-F`). -/
def hexDigitVal (c : Nat) : Option Nat :=
  if 48 ≤ c ∧ c ≤ 57 then some (c - 48)
  else if 97 ≤ c ∧ c ≤ 102 then some (c - 97 + 10)
  else if 65 ≤ c ∧ c ≤ 70 then some (c - 65 + 10)
  else none

/-- The four-digit loop of `decodeUnicodeEscapeSequence`. -/
def hexLoop (ctx : Ctx) (tok : Token) : Nat → Nat → Nat → PState → Bool × Nat × Nat × PState
  | 0, cur, acc, st => (true, acc, cur, st)
  | i + 1, cur, acc, st =>
    let c := ctx.doc.getD cur 0
    let cur1 := cur + 1
    match hexDigitVal c with
    | some d => hexLoop ctx tok i cur1 (acc * 16 + d) st
    | none => (false, 0, cur1,
        addError ctx ("Bad unicode escape sequence in string: hexadecimal digit expected.")
          tok (some cur1) st)

/-- `decodeUnicodeEscapeSequence`: exactly four hex digits. Returns
(ok, value, new cursor, state). -/
def decodeUES (ctx : Ctx) (tok : Token) (cur endP : Nat) (st : PState) :
    Bool × Nat × Nat × PState :=
  if endP - cur < 4 then
    (false, 0, cur,
      addError ctx ("Bad unicode escape sequence in string: four digits expected.")
        tok (some cur) st)
  else hexLoop ctx tok 4 cur 0 st

/-- `decodeUnicodeCodePoint`: one escape, plus the surrogate-pair logic.
`(uni &&& 0x3FF) <<< 10` is written `(uni % 0x400) * 0x400` (equal on
`Nat`).  The short-circuit of `*(current++) == '\\' && *(current++) == 'u'`
is mirrored: when the first byte is not a backslash only one byte is
consumed before the error. -/
def decodeUCP (ctx : Ctx) (tok : Token) (cur endP : Nat) (st : PState) :
    Bool × Nat × Nat × PState :=
  match decodeUES ctx tok cur endP st with
  | (false, u, cur1, st1) => (false, u, cur1, st1)
  | (true, unicode, cur1, st1) =>
    if 0xD800 ≤ unicode ∧ unicode ≤ 0xDBFF then
      if endP - cur1 < 6 then
        (false, unicode, cur1,
          addError ctx ("additional six characters expected to parse unicode surrogate pair.")
            tok (some cur1) st1)
      else
        let c1 := ctx.doc.getD cur1 0
        let cur2 := cur1 + 1
        if c1 = 92 then
          let c2 := ctx.doc.getD cur2 0
          let cur3 := cur2 + 1
          if c2 = 117 then
            match decodeUES ctx tok cur3 endP st1 with
            | (true, sp, cur4, st2) =>
              (true, 0x10000 + (unicode % 0x400) * 0x400 + sp % 0x400, cur4, st2)
            | (false, sp, cur4, st2) => (false, sp, cur4, st2)
          else (false, unicode, cur3,
            addError ctx ("expecting another \\u token to begin the second half of a unicode surrogate pair")
              tok (some cur3) st1)
        else (false, unicode, cur2,
          addError ctx ("expecting another \\u token to begin the second half of a unicode surrogate pair")
            tok (some cur2) st1)
    else (true, unicode, cur1, st1)

/-- Modelled from the spec: `codePointToUTF8` lives in `json_tool.h`,
which is not among the sources; §4.3: "Code points are emitted as UTF-8
using the standard 1-4 byte encoding." -/
def codePointToUTF8 (cp : Nat) : List Nat :=
  if cp ≤ 0x7F then [cp]
  else if cp ≤ 0x7FF then [0xC0 + cp / 64, 0x80 + cp % 64]
  else if cp ≤ 0xFFFF then [0xE0 + cp / 4096, 0x80 + (cp / 64) % 64, 0x80 + cp % 64]
  else [0xF0 + cp / 262144, 0x80 + (cp / 4096) % 64, 0x80 + (cp / 64) % 64, 0x80 + cp % 64]

/-- Interior loop of `decodeString(Token&, std::string&)`: processes
bytes in `[offsetStart+1, offsetEnd-1)`; stops early (successfully) at an
unescaped `"`.  `fuel` bounds iterations; each consumes at least one
byte, so any fuel above the interior length is enough. -/
def decodeStringCoreF (ctx : Ctx) (tok : Token) :
    Nat → Nat → Nat → List Nat → PState → Bool × List Nat × PState
  | 0, _, _, acc, st => (false, acc, st)
  | fuel + 1, cur, endP, acc, st =>
    if cur = endP then (true, acc, st)
    else
      let c := ctx.doc.getD cur 0
      let cur1 := cur + 1
      if c = 34 then (true, acc, st)
      else if c = 92 then
        if cur1 = endP then
          (false, acc, addError ctx ("Empty escape sequence in string") tok (some cur1) st)
        else
          let esc := ctx.doc.getD cur1 0
          let cur2 := cur1 + 1
          if esc = 34 then decodeStringCoreF ctx tok fuel cur2 endP (acc ++ [34]) st
          else if esc = 47 then decodeStringCoreF ctx tok fuel cur2 endP (acc ++ [47]) st
          else if esc = 92 then decodeStringCoreF ctx tok fuel cur2 endP (acc ++ [92]) st
          else if esc = 98 then decodeStringCoreF ctx tok fuel cur2 endP (acc ++ [8]) st
          else if esc = 102 then decodeStringCoreF ctx tok fuel cur2 endP (acc ++ [12]) st
          else if esc = 110 then decodeStringCoreF ctx tok fuel cur2 endP (acc ++ [10]) st
          else if esc = 114 then decodeStringCoreF ctx tok fuel cur2 endP (acc ++ [13]) st
          else if esc = 116 then decodeStringCoreF ctx tok fuel cur2 endP (acc ++ [9]) st
          else if esc = 117 then
            match decodeUCP ctx tok cur2 endP st with
            | (true, uni, cur3, st1) =>
              decodeStringCoreF ctx tok fuel cur3 endP (acc ++ codePointToUTF8 uni) st1
            | (false, _, _, st1) => (false, acc, st1)
          else (false, acc, addError ctx ("Bad escape sequence in string") tok (some cur2) st)
      else decodeStringCoreF ctx tok fuel cur1 endP (acc ++ [c]) st

/-- `decodeString(Token&, std::string&)`: run the interior loop over the
token span with the quotes stripped. -/
def decodeStringBytes (fuel : Nat) (ctx : Ctx) (tok : Token) (st : PState) :
    Bool × List Nat × PState :=
  decodeStringCoreF ctx tok fuel (tok.offsetStart + 1) (tok.offsetEnd - 1) [] st

/-- `decodeString(Token&)`: decode and install in the current value. -/
def decodeStringInstall (fuel : Nat) (ctx : Ctx) (tok : Token) (st : PState) :
    Bool × JVal × PState :=
  match decodeStringBytes fuel ctx tok st with
  | (true, s, st') => (true, installPayload tok (.strV s), st')
  | (false, _, st') => (false, nullSlot, st')

/-- Decimal digits of a natural number. -/
def natDecimalBytes (n : Nat) : List Nat := (Nat.toDigits 10 n).map Char.toNat

/-- Modelled from the spec: `Value::asString` on a numeric key (§4.5.2:
"the number's canonical string form"); `Json::Value` is external.  The
double case returns the raw literal (no verified property uses it). -/
def payloadAsString : JPayload → List Nat
  | .intV i => if i < 0 then 45 :: natDecimalBytes i.natAbs else natDecimalBytes i.toNat
  | .uintV n => natDecimalBytes n
  | .doubleV raw => raw
  | _ => []

/-! ## Value parser -/

/-- `skipCommentTokens`: with comments enabled, read tokens repeatedly
discarding Comment tokens; otherwise read exactly one token. -/
def skipCommentTokensF : Nat → Ctx → Cursor → Except Halt (Token × Cursor)
  | 0, _, _ => .error .outOfFuel
  | fuel + 1, ctx, cur =>
    let (tok, cur') := readToken ctx cur
    if ctx.feats.allowComments ∧ tok.type = TokType.comment then
      skipCommentTokensF fuel ctx cur'
    else .ok (tok, cur')

/-- The `while (token is Comment) readToken(token)` pattern of
`readObject` / `readArray` (whose `readToken` guard flag is always
true, since `readToken` always returns true). -/
def skipWhileCommentF : Nat → Ctx → Token → Cursor → Except Halt (Token × Cursor)
  | 0, _, _, _ => .error .outOfFuel
  | fuel + 1, ctx, tok, cur =>
    if tok.type = TokType.comment then
      let (tok', cur') := readToken ctx cur
      skipWhileCommentF fuel ctx tok' cur'
    else .ok (tok, cur)

/-- Loop of `recoverFromError`: read tokens until `skipUntil` or
EndOfStream appears (consuming it), then truncate the error journal to
its pre-recovery size and return `false`.  (`readToken` always returns
true, so the inner `resize` of the source never runs; `readToken` never
journals errors.) -/
def recoverGo (ctx : Ctx) (skipUntil : TokType) (errorCount : Nat) :
    Nat → PState → Except Halt (Bool × PState)
  | 0, _ => .error .outOfFuel
  | fuel + 1, st =>
    let (tok, cur') := readToken ctx st.cur
    let st' := { st with cur := cur' }
    if tok.type = skipUntil ∨ tok.type = TokType.endOfStream then
      .ok (false, { st' with errors := st'.errors.take errorCount })
    else recoverGo ctx skipUntil errorCount fuel st'

/-- `recoverFromError(skipUntilToken)`: always returns `false` paired
with the recovered state. -/
def recoverFromErrorF (fuel : Nat) (ctx : Ctx) (skipUntil : TokType) (st : PState) :
    Except Halt (Bool × PState) :=
  recoverGo ctx skipUntil st.errors.length fuel st

/-- `addErrorAndRecover`. -/
def addErrorAndRecoverF (fuel : Nat) (ctx : Ctx) (msg : String) (tok : Token)
    (skipUntil : TokType) (st : PState) : Except Halt (Bool × PState) :=
  recoverFromErrorF fuel ctx skipUntil (addError ctx msg tok none st)

/-- `Value::isMember` on the modelled member list. -/
def isMember (members : List (List Nat × JVal)) (name : List Nat) : Bool :=
  members.any (fun m => m.1 == name)

/-- `currentValue()[name]` + payload overwrite: replace the member if the
key is present (last write wins), else append. -/
def setMember : List (List Nat × JVal) → List Nat → JVal → List (List Nat × JVal)
  | [], k, v => [(k, v)]
  | (k0, v0) :: rest, k, v =>
    if k0 == k then (k0, v) :: rest else (k0, v0) :: setMember rest k v

/-- Step 3 of `readValue`: when collecting comments and
`commentsBefore_` is non-empty, attach it to the current value with
placement Before (a no-op on the value tree) and clear the accumulator. -/
def commentsBeforeStep (ctx : Ctx) (st : PState) : PState :=
  if ctx.collectComments ∧ st.cur.commentsBefore ≠ [] then
    { st with cur := { st.cur with commentsBefore := [] } }
  else st

/-- Tail of `readValue`: on the non-early-return paths, record
`lastValueEnd_ = current_` (and `lastValue_`, a no-op here) when
collecting comments. -/
def finishVal (ctx : Ctx) (ok : Bool) (v : JVal) (st : PState) : Bool × JVal × PState :=
  if ctx.collectComments then
    (ok, v, { st with cur := { st.cur with lastValueEnd := some st.cur.pos } })
  else (ok, v, st)

/-- The dropped-null-placeholder branch of `readValue`: un-read one byte
and install a null with `offset_start = current_-begin_-1`,
`offset_limit = current_-begin_`. -/
def droppedNullBranch (ctx : Ctx) (st : PState) : Bool × JVal × PState :=
  let pos' := st.cur.pos - 1
  let v := JVal.mk .nullV ((pos' : Int) - 1) (pos' : Int)
  finishVal ctx true v { st with cur := { st.cur with pos := pos' } }

/-- The default branch of `readValue`: set the slot's offsets from the
token and journal "Syntax error: value, object or array expected."
(early return: no `lastValueEnd_` update). -/
def syntaxErrorBranch (ctx : Ctx) (token : Token) (st : PState) : Bool × JVal × PState :=
  let v := JVal.mk .nullV (token.offsetStart : Int) (token.offsetEnd : Int)
  (false, v, addError ctx ("Syntax error: value, object or array expected.") token none st)

/-- The three mutually recursive parser functions
(`readValue` / `readObject`-loop / `readArray`-loop), packaged so that
the single structural recursion is on the fuel. -/
structure PFns where
  rv : Ctx → Nat → PState → Except Halt (Bool × JVal × PState)
  rol : Ctx → Nat → Int → List (List Nat × JVal) → List Nat → PState →
    Except Halt (Bool × JVal × PState)
  ral : Ctx → Nat → Int → List JVal → PState → Except Halt (Bool × JVal × PState)

/-- Fuel-indexed family of the parser functions.  `rv ctx nodes st` is
`readValue` with `nodes = nodes_.size()`; `rol` is the member loop of
`readObject` carrying the object's members built so far and the `name`
variable that survives loop iterations; `ral` is the element loop of
`readArray`. -/
def pfns : Nat → PFns
  | 0 =>
    { rv := fun _ _ _ => .error .outOfFuel
      rol := fun _ _ _ _ _ _ => .error .outOfFuel
      ral := fun _ _ _ _ _ => .error .outOfFuel }
  | fuel + 1 =>
    let P := pfns fuel
    { rv := fun ctx nodes st =>
        if (nodes : Int) > ctx.feats.stackLimit then
          .error (.fatal ("Exceeded stackLimit in readValue()."))
        else do
          let (token, cur) ← skipCommentTokensF (fuel + 1) ctx st.cur
          let st2 := commentsBeforeStep ctx { st with cur := cur }
          match token.type with
          | TokType.objectBegin => do
            let (ok, v, st') ← P.rol ctx nodes (token.offsetStart : Int) [] [] st2
            .ok (finishVal ctx ok (v.withOffsetLimit (st'.cur.pos : Int)) st')
          | TokType.arrayBegin =>
            let pos' := skipSpaces ctx.doc st2.cur.pos
            let st3 := { st2 with cur := { st2.cur with pos := pos' } }
            if pos' < ctx.doc.length ∧ ctx.doc.getD pos' 0 = 93 then
              let (_, cur') := readToken ctx st3.cur
              let st4 := { st3 with cur := cur' }
              let v := JVal.mk (.arrV []) (token.offsetStart : Int) 0
              .ok (finishVal ctx true (v.withOffsetLimit (st4.cur.pos : Int)) st4)
            else do
              let (ok, v, st') ← P.ral ctx nodes (token.offsetStart : Int) [] st3
              .ok (finishVal ctx ok (v.withOffsetLimit (st'.cur.pos : Int)) st')
          | TokType.number =>
            let (ok, v, st') := decodeNumberInstall ctx token st2
            .ok (finishVal ctx ok v st')
          | TokType.stringTok =>
            let (ok, v, st') := decodeStringInstall (fuel + 1) ctx token st2
            .ok (finishVal ctx ok v st')
          | TokType.trueTok => .ok (finishVal ctx true (installPayload token (.boolV true)) st2)
          | TokType.falseTok => .ok (finishVal ctx true (installPayload token (.boolV false)) st2)
          | TokType.nullTok => .ok (finishVal ctx true (installPayload token .nullV) st2)
          | TokType.nanTok => .ok (finishVal ctx true (installPayload token .nanV) st2)
          | TokType.posInf => .ok (finishVal ctx true (installPayload token .posInfV) st2)
          | TokType.negInf => .ok (finishVal ctx true (installPayload token .negInfV) st2)
          | TokType.arraySeparator =>
            if ctx.feats.allowDroppedNullPlaceholders then .ok (droppedNullBranch ctx st2)
            else .ok (syntaxErrorBranch ctx token st2)
          | TokType.objectEnd =>
            if ctx.feats.allowDroppedNullPlaceholders then .ok (droppedNullBranch ctx st2)
            else .ok (syntaxErrorBranch ctx token st2)
          | TokType.arrayEnd =>
            if ctx.feats.allowDroppedNullPlaceholders then .ok (droppedNullBranch ctx st2)
            else .ok (syntaxErrorBranch ctx token st2)
          | _ => .ok (syntaxErrorBranch ctx token st2)
      rol := fun ctx nodes objStart members name st => do
        let (tokenName0, cur0) := readToken ctx st.cur
        let (tokenName, cur1) ← skipWhileCommentF (fuel + 1) ctx tokenName0 cur0
        let st1 := { st with cur := cur1 }
        let afterName : List Nat → PState → Except Halt (Bool × JVal × PState) :=
          fun nm st2 => do
            let (colon, curc) := readToken ctx st2.cur
            let st3 := { st2 with cur := curc }
            if colon.type ≠ TokType.memberSeparator then do
              let (_, st4) ← addErrorAndRecoverF (fuel + 1) ctx
                ("Missing \x27:\x27 after object member name") colon TokType.objectEnd st3
              .ok (false, JVal.mk (.objV members) objStart 0, st4)
            else if nm.length ≥ 2 ^ 30 then .error (.fatal ("keylength >= 2^30"))
            else if ctx.feats.rejectDupKeys ∧ isMember members nm then do
              let (_, st4) ← addErrorAndRecoverF (fuel + 1) ctx
                ("Duplicate key: \x27" ++ strOfBytes nm ++ "\x27") tokenName TokType.objectEnd st3
              .ok (false, JVal.mk (.objV members) objStart 0, st4)
            else do
              let (ok, v, st4) ← P.rv ctx (nodes + 1) st3
              let members' := setMember members nm v
              if ¬ ok then do
                let (_, st5) ← recoverFromErrorF (fuel + 1) ctx TokType.objectEnd st4
                .ok (false, JVal.mk (.objV members') objStart 0, st5)
              else do
                let (comma, curm) := readToken ctx st4.cur
                let st5 := { st4 with cur := curm }
                if comma.type ≠ TokType.objectEnd ∧ comma.type ≠ TokType.arraySeparator ∧
                    comma.type ≠ TokType.comment then do
                  let (_, st6) ← addErrorAndRecoverF (fuel + 1) ctx
                    ("Missing \x27,\x27 or \x27\x7d\x27 in object declaration") comma
                    TokType.objectEnd st5
                  .ok (false, JVal.mk (.objV members') objStart 0, st6)
                else do
                  let (comma2, curm2) ← skipWhileCommentF (fuel + 1) ctx comma st5.cur
                  let st6 := { st5 with cur := curm2 }
                  if comma2.type = TokType.objectEnd then
                    .ok (true, JVal.mk (.objV members') objStart 0, st6)
                  else P.rol ctx nodes objStart members' nm st6
        if tokenName.type = TokType.objectEnd ∧ name = [] then
          .ok (true, JVal.mk (.objV members) objStart 0, st1)
        else if tokenName.type = TokType.stringTok then
          match decodeStringBytes (fuel + 1) ctx tokenName st1 with
          | (false, _, st2) => do
            let (_, st3) ← recoverFromErrorF (fuel + 1) ctx TokType.objectEnd st2
            .ok (false, JVal.mk (.objV members) objStart 0, st3)
          | (true, nm, st2) => afterName nm st2
        else if tokenName.type = TokType.number ∧ ctx.feats.allowNumericKeys then
          let (nok, p, st2) := decodeNumberVal ctx tokenName st1
          if nok then afterName (payloadAsString (p.getD .nullV)) st2
          else do
            let (_, st3) ← recoverFromErrorF (fuel + 1) ctx TokType.objectEnd st2
            .ok (false, JVal.mk (.objV members) objStart 0, st3)
        else do
          let (_, st2) ← addErrorAndRecoverF (fuel + 1) ctx
            ("Missing \x27\x7d\x27 or object member name") tokenName TokType.objectEnd st1
          .ok (false, JVal.mk (.objV members) objStart 0, st2)
      ral := fun ctx nodes arrStart elems st => do
        let (ok, v, st1) ← P.rv ctx (nodes + 1) st
        let elems' := elems ++ [v]
        if ¬ ok then do
          let (_, st2) ← recoverFromErrorF (fuel + 1) ctx TokType.arrayEnd st1
          .ok (false, JVal.mk (.arrV elems') arrStart 0, st2)
        else do
          let (token0, cur0) := readToken ctx st1.cur
          let (token, cur1) ← skipWhileCommentF (fuel + 1) ctx token0 cur0
          let st2 := { st1 with cur := cur1 }
          if token.type ≠ TokType.arraySeparator ∧ token.type ≠ TokType.arrayEnd then do
            let (_, st3) ← addErrorAndRecoverF (fuel + 1) ctx
              ("Missing \x27,\x27 or \x27]\x27 in array declaration") token TokType.arrayEnd st2
            .ok (false, JVal.mk (.arrV elems') arrStart 0, st3)
          else if token.type = TokType.arrayEnd then
            .ok (true, JVal.mk (.arrV elems') arrStart 0, st2)
          else P.ral ctx nodes arrStart elems' st2 }

/-- `readValue` with explicit fuel and `nodes_.size()`. -/
def readValueF (fuel : Nat) (ctx : Ctx) (nodes : Nat) (st : PState) :
    Except Halt (Bool × JVal × PState) := (pfns fuel).rv ctx nodes st

/-- The member loop of `readObject` with explicit fuel. -/
def readObjectLoopF (fuel : Nat) (ctx : Ctx) (nodes : Nat) (objStart : Int)
    (members : List (List Nat × JVal)) (name : List Nat) (st : PState) :
    Except Halt (Bool × JVal × PState) := (pfns fuel).rol ctx nodes objStart members name st

/-- The element loop of `readArray` with explicit fuel. -/
def readArrayLoopF (fuel : Nat) (ctx : Ctx) (nodes : Nat) (arrStart : Int)
    (elems : List JVal) (st : PState) :
    Except Halt (Bool × JVal × PState) := (pfns fuel).ral ctx nodes arrStart elems st

/-- Lines 241-264 of `OurReader::parse`: the post-value token read, the
`failIfExtra` check, the root-comment attach (a no-op on the tree) and
the `strictRoot` check. -/
def parsePostF (fuel : Nat) (ctx : Ctx) (successful : Bool) (root : JVal) (st : PState) :
    Except Halt (Bool × JVal × PState) := do
  let (token, cur) ← skipCommentTokensF fuel ctx st.cur
  let st1 := { st with cur := cur }
  if ctx.feats.failIfExtra ∧ (ctx.feats.strictRoot ∨ token.type ≠ TokType.errorTok) ∧
      token.type ≠ TokType.endOfStream then
    .ok (false, root, addError ctx ("Extra non-whitespace after JSON value.") token none st1)
  else
    if ctx.feats.strictRoot ∧ ¬ (root.isArray ∨ root.isObject) then
      let tok : Token := { type := TokType.errorTok, offsetStart := 0, offsetEnd := ctx.doc.length }
      .ok (false, root,
        addError ctx ("A valid JSON document must be either an array or an object value.") tok none st1)
    else .ok (successful, root, st1)

/-- Build the context of a parse: the "force off" rule for
`collectComments` applied at the top of `OurReader::parse`. -/
def mkCtx (feats : Features) (collectComments : Bool) (doc : List Nat) : Ctx :=
  { doc := doc, feats := feats,
    collectComments := if ¬ feats.allowComments then false else collectComments }

/-- Fresh parser state at the start of `parse`. -/
def initState : PState :=
  { cur := { pos := 0, commentsBefore := [], lastValueEnd := none }, errors := [] }

/-- `OurReader::parse` over an in-memory byte range. -/
def parseF (fuel : Nat) (feats : Features) (collectComments : Bool) (doc : List Nat) :
    Except Halt (Bool × JVal × PState) := do
  let ctx := mkCtx feats collectComments doc
  let (successful, root, st) ← readValueF fuel ctx 1 initState
  parsePostF fuel ctx successful root st

/-! ## Result projections for stating concrete outcomes -/

/-- Success flag of a parse result. -/
def resOk : Except Halt (Bool × JVal × PState) → Option Bool
  | .ok (b, _, _) => some b
  | _ => none

/-- Offset-erased root value of a parse result. -/
def resPlain : Except Halt (Bool × JVal × PState) → Option PVal
  | .ok (_, v, _) => some v.plain
  | _ => none

/-- Root value (with offsets) of a parse result. -/
def resRoot : Except Halt (Bool × JVal × PState) → Option JVal
  | .ok (_, v, _) => some v
  | _ => none

/-- Final cursor position of a parse result. -/
def resPos : Except Halt (Bool × JVal × PState) → Option Nat
  | .ok (_, _, st) => some st.cur.pos
  | _ => none

/-- Error-journal messages of a parse result. -/
def resMsgs : Except Halt (Bool × JVal × PState) → Option (List String)
  | .ok (_, _, st) => some (st.errors.map ErrEntry.message)
  | _ => none

/-- Full error journal of a parse result. -/
def resErrors : Except Halt (Bool × JVal × PState) → Option (List ErrEntry)
  | .ok (_, _, st) => some st.errors
  | _ => none

/-- Fatal-error message, when the parse aborted via `throwRuntimeError`. -/
def resFatal : Except Halt (Bool × JVal × PState) → Option String
  | .error (.fatal m) => some m
  | _ => none

/-! ## Spec-side definitions and statement helpers -/

/-- Numeric value of a digit-byte string (fold with accumulator, the
abstract counterpart of the decoder's accumulation). -/
def natFold (value : Nat) (ds : List Nat) : Nat :=
  ds.foldl (fun a c => a * 10 + (c - 48)) value

/-- Numeric value of a digit-byte string. -/
def natOfDigits (ds : List Nat) : Nat := natFold 0 ds

/-- Spec-side line-terminator count: CR, LF, and CRLF each count as
exactly one line terminator (§4.1 `locate`). -/
def countEols : List Nat → Nat
  | [] => 0
  | 13 :: 10 :: r => countEols r + 1
  | 13 :: r => countEols r + 1
  | 10 :: r => countEols r + 1
  | _ :: r => countEols r

/-- Does a byte list contain no CR and no LF? -/
def eolFree (l : List Nat) : Bool := l.all (fun c => c ≠ 13 ∧ c ≠ 10)

/-- Spec-side column count: the number of bytes from the last line
start, i.e. the length of the longest CR/LF-free suffix (§4.1: "Column
is counted in bytes from the last line start"). -/
def colLen (l : List Nat) : Nat :=
  (l.reverse.takeWhile (fun c => c ≠ 13 ∧ c ≠ 10)).length

/-- List-level restatement of the `getLocationLineAndColumn` walk (proof
helper bridging the position-based walk and the spec-side counts):
arguments are remaining bytes, absolute position, last line start, and
terminator count. -/
def glL : List Nat → Nat → Nat → Nat → Nat × Nat
  | [], _, lls, line => (lls, line)
  | 13 :: 10 :: r, pos, _, line => glL r (pos + 2) (pos + 2) (line + 1)
  | 13 :: r, pos, _, line => glL r (pos + 1) (pos + 1) (line + 1)
  | 10 :: r, pos, _, line => glL r (pos + 1) (pos + 1) (line + 1)
  | _ :: r, pos, lls, line => glL r (pos + 1) lls line

/-- The document `[`^k `1` `]`^k, a valid JSON document of recursion
depth k+1 (the root value counts as depth 1). -/
def nestDoc (k : Nat) : List Nat :=
  List.replicate k 91 ++ 49 :: List.replicate k 93

/-- Cursor after reading `n` tokens from `cur`. -/
def nthCursor (ctx : Ctx) (cur : Cursor) : Nat → Cursor
  | 0 => cur
  | n + 1 => nthCursor ctx (readToken ctx cur).2 n

/-- The `(n+1)`-th token read from `cur`. -/
def nthToken (ctx : Ctx) (cur : Cursor) (n : Nat) : Token :=
  (readToken ctx (nthCursor ctx cur n)).1

/-! ## Basic unfolding lemmas -/

theorem exc_bind_ok {α β : Type} (a : α) (f : α → Except Halt β) :
    ((Except.ok a : Except Halt α) >>= f) = f a := rfl

theorem finishVal_eq (ctx : Ctx) (ok : Bool) (v : JVal) (st : PState) :
    finishVal ctx ok v st = (ok, v, (finishVal ctx ok v st).2.2) := by
  unfold finishVal; split <;> rfl

theorem finishVal_pos (ctx : Ctx) (ok : Bool) (v : JVal) (st : PState) :
    (finishVal ctx ok v st).2.2.cur.pos = st.cur.pos := by
  unfold finishVal; split <;> rfl

theorem finishVal_errors (ctx : Ctx) (ok : Bool) (v : JVal) (st : PState) :
    (finishVal ctx ok v st).2.2.errors = st.errors := by
  unfold finishVal; split <;> rfl

theorem commentsBeforeStep_pos (ctx : Ctx) (st : PState) :
    (commentsBeforeStep ctx st).cur.pos = st.cur.pos := by
  unfold commentsBeforeStep; split <;> rfl

theorem commentsBeforeStep_errors (ctx : Ctx) (st : PState) :
    (commentsBeforeStep ctx st).errors = st.errors := by
  unfold commentsBeforeStep; split <;> rfl

theorem resOk_finish (ctx : Ctx) (ok : Bool) (v : JVal) (st : PState) :
    resOk (.ok (finishVal ctx ok v st)) = some ok := by
  unfold finishVal; split <;> rfl

theorem resRoot_finish (ctx : Ctx) (ok : Bool) (v : JVal) (st : PState) :
    resRoot (.ok (finishVal ctx ok v st)) = some v := by
  unfold finishVal; split <;> rfl

theorem resPos_finish (ctx : Ctx) (ok : Bool) (v : JVal) (st : PState) :
    resPos (.ok (finishVal ctx ok v st)) = some st.cur.pos := by
  unfold finishVal; split <;> rfl

theorem resErrors_finish (ctx : Ctx) (ok : Bool) (v : JVal) (st : PState) :
    resErrors (.ok (finishVal ctx ok v st)) = some st.errors := by
  unfold finishVal; split <;> rfl

/-- C6: with `allow_dropped_null_placeholders` enabled and the token read
for a value position being ArraySeparator / ObjectEnd / ArrayEnd,
`readValue` rewinds the byte cursor by exactly one byte, installs a null
whose `offset_start` is `current - begin - 1` and whose `offset_limit` is
`current - begin` (`current` being the post-rewind cursor), reports no
error, and continues successfully; in particular `[1, 2, , 3]` parses to
the array `[1, 2, null, 3]`. -/
theorem C6_dropped_null_placeholder :
    (∀ (fuel : Nat) (ctx : Ctx) (nodes : Nat) (st : PState) (tok : Token) (cur : Cursor),
      ctx.feats.allowDroppedNullPlaceholders = true →
      (nodes : Int) ≤ ctx.feats.stackLimit →
      skipCommentTokensF (fuel + 1) ctx st.cur = .ok (tok, cur) →
      (tok.type = TokType.arraySeparator ∨ tok.type = TokType.objectEnd ∨
        tok.type = TokType.arrayEnd) →
      resOk (readValueF (fuel + 1) ctx nodes st) = some true ∧
      resRoot (readValueF (fuel + 1) ctx nodes st) =
        some (JVal.mk .nullV (((cur.pos - 1 : Nat) : Int) - 1) ((cur.pos - 1 : Nat) : Int)) ∧
      resPos (readValueF (fuel + 1) ctx nodes st) = some (cur.pos - 1) ∧
      resErrors (readValueF (fuel + 1) ctx nodes st) = some st.errors) ∧
    resOk (parseF 100 { defaultFeatures with allowDroppedNullPlaceholders := true } true
      (bytes "[1, 2, , 3]")) = some true ∧
    resPlain (parseF 100 { defaultFeatures with allowDroppedNullPlaceholders := true } true
      (bytes "[1, 2, , 3]")) =
      some (.arrV [.intV 1, .intV 2, .nullV, .intV 3]) := by
  refine ⟨?_, rfl, rfl⟩
  intro fuel ctx nodes st tok cur hfeat hlim hskip htype
  have hguard : ¬ ((nodes : Int) > ctx.feats.stackLimit) := not_lt.mpr hlim
  have hstep : readValueF (fuel + 1) ctx nodes st =
      .ok (droppedNullBranch ctx (commentsBeforeStep ctx { st with cur := cur })) := by
    rw [readValueF]
    show (pfns (fuel + 1)).rv ctx nodes st = _
    rw [pfns]
    simp only [if_neg hguard, hskip, exc_bind_ok]
    rcases htype with h | h | h <;> rw [h] <;> simp [hfeat]
  rw [hstep]
  simp only [droppedNullBranch]
  refine ⟨resOk_finish .., ?_, ?_, ?_⟩
  · rw [resRoot_finish]
    simp [commentsBeforeStep_pos]
  · rw [resPos_finish]
    simp [commentsBeforeStep_pos]
  · rw [resErrors_finish]
    simp [commentsBeforeStep_errors]

theorem C6_dropped_null_placeholder_witness :
    resOk (readValueF 5
      (mkCtx { defaultFeatures with allowDroppedNullPlaceholders := true } true (bytes ","))
      1 initState) = some true :=
  (C6_dropped_null_placeholder.1 4
    (mkCtx { defaultFeatures with allowDroppedNullPlaceholders := true } true (bytes ","))
    1 initState ⟨TokType.arraySeparator, 0, 1⟩ ⟨1, [], none⟩ rfl (by decide) rfl
    (Or.inl rfl)).1

/-! ## Progress lemmas for the tokenizer -/

theorem skipSpacesL_mono (l : List Nat) : ∀ pos, pos ≤ skipSpacesL l pos := by
  induction l with
  | nil => intro pos; simp [skipSpacesL]
  | cons c r ih =>
    intro pos
    rw [skipSpacesL]
    split
    · exact le_trans (by omega) (ih (pos + 1))
    · exact le_refl _

theorem skipSpacesL_le (l : List Nat) : ∀ pos, skipSpacesL l pos ≤ pos + l.length := by
  induction l with
  | nil => intro pos; simp [skipSpacesL]
  | cons c r ih =>
    intro pos
    rw [skipSpacesL]
    split
    · exact le_trans (ih (pos + 1)) (by simp; omega)
    · simp

theorem skipSpaces_mono (doc : List Nat) (pos : Nat) : pos ≤ skipSpaces doc pos :=
  skipSpacesL_mono _ _

theorem skipSpaces_le (doc : List Nat) (pos : Nat) (h : pos ≤ doc.length) :
    skipSpaces doc pos ≤ doc.length := by
  have := skipSpacesL_le (doc.drop pos) pos
  rw [skipSpaces]
  simp [List.length_drop] at this ⊢
  omega

theorem digitRunL_mono (l : List Nat) : ∀ pos, pos ≤ digitRunL l pos := by
  induction l with
  | nil => intro pos; simp [digitRunL]
  | cons c r ih =>
    intro pos
    rw [digitRunL]
    split
    · exact le_trans (by omega) (ih (pos + 1))
    · exact le_refl _

theorem digitRunL_le (l : List Nat) : ∀ pos, digitRunL l pos ≤ pos + l.length := by
  induction l with
  | nil => intro pos; simp [digitRunL]
  | cons c r ih =>
    intro pos
    rw [digitRunL]
    split
    · exact le_trans (ih (pos + 1)) (by simp; omega)
    · simp

theorem digitRunEnd_mono (doc : List Nat) (pos : Nat) : pos ≤ digitRunEnd doc pos :=
  digitRunL_mono _ _

theorem digitRunEnd_le (doc : List Nat) (pos : Nat) (h : pos ≤ doc.length) :
    digitRunEnd doc pos ≤ doc.length := by
  have := digitRunL_le (doc.drop pos) pos
  rw [digitRunEnd]
  simp [List.length_drop] at this ⊢
  omega

theorem getNextChar_mono (doc : List Nat) (pos : Nat) : pos ≤ (getNextChar doc pos).2 := by
  rw [getNextChar]; split <;> simp

theorem getNextChar_le (doc : List Nat) (pos : Nat) (h : pos ≤ doc.length) :
    (getNextChar doc pos).2 ≤ doc.length := by
  rw [getNextChar]; split <;> simp <;> omega

theorem matchPat_mono (doc : List Nat) (pos : Nat) (pat : List Nat) :
    pos ≤ (matchPat doc pos pat).2 := by
  rw [matchPat]; split
  · simp
  · split <;> simp

theorem matchPat_le (doc : List Nat) (pos : Nat) (pat : List Nat) (h : pos ≤ doc.length) :
    (matchPat doc pos pat).2 ≤ doc.length := by
  rw [matchPat]
  split
  · simpa using h
  · rename_i hlen
    split <;> simp <;> omega

theorem cstyleGo_mono (doc : List Nat) : ∀ fuel pos, pos ≤ cstyleGo doc fuel pos := by
  intro fuel
  induction fuel with
  | zero => intro pos; simp [cstyleGo]
  | succ f ih =>
    intro pos
    simp only [cstyleGo]
    split
    · split
      · omega
      · exact le_trans (by omega) (ih (pos + 1))
    · exact le_refl _

theorem cstyleGo_le (doc : List Nat) : ∀ fuel pos, pos ≤ doc.length →
    cstyleGo doc fuel pos ≤ doc.length := by
  intro fuel
  induction fuel with
  | zero => intro pos h; simpa [cstyleGo] using h
  | succ f ih =>
    intro pos h
    simp only [cstyleGo]
    split
    · split
      · omega
      · exact ih (pos + 1) (by omega)
    · exact h

theorem readCStyleComment_mono (doc : List Nat) (pos : Nat) :
    pos ≤ (readCStyleComment doc pos).2 := by
  rw [readCStyleComment]
  exact le_trans (cstyleGo_mono doc _ pos) (getNextChar_mono doc _)

theorem readCStyleComment_le (doc : List Nat) (pos : Nat) (h : pos ≤ doc.length) :
    (readCStyleComment doc pos).2 ≤ doc.length := by
  rw [readCStyleComment]
  exact getNextChar_le doc _ (cstyleGo_le doc _ pos h)

theorem cppGo_mono (doc : List Nat) : ∀ fuel pos, pos ≤ cppGo doc fuel pos := by
  intro fuel
  induction fuel with
  | zero => intro pos; simp [cppGo]
  | succ f ih =>
    intro pos
    simp only [cppGo]
    split
    · split
      · omega
      · split
        · split <;> omega
        · exact le_trans (by omega) (ih (pos + 1))
    · exact le_refl _

theorem cppGo_le (doc : List Nat) : ∀ fuel pos, pos ≤ doc.length →
    cppGo doc fuel pos ≤ doc.length := by
  intro fuel
  induction fuel with
  | zero => intro pos h; simpa [cppGo] using h
  | succ f ih =>
    intro pos h
    simp only [cppGo]
    split
    · rename_i hlt
      split
      · omega
      · split
        · split
          · rename_i h2 _
            omega
          · omega
        · exact ih (pos + 1) (by omega)
    · exact h

theorem readCppStyleComment_mono (doc : List Nat) (pos : Nat) :
    pos ≤ (readCppStyleComment doc pos).2 := cppGo_mono doc _ pos

theorem readCppStyleComment_le (doc : List Nat) (pos : Nat) (h : pos ≤ doc.length) :
    (readCppStyleComment doc pos).2 ≤ doc.length := cppGo_le doc _ pos h

theorem rstrGo_mono (doc : List Nat) (q : Nat) : ∀ fuel pos, pos ≤ (rstrGo doc q fuel pos).2 := by
  intro fuel
  induction fuel with
  | zero => intro pos; simp [rstrGo]
  | succ f ih =>
    intro pos
    simp only [rstrGo]
    split
    · split
      · split
        · exact le_trans (by omega) (ih (pos + 1 + 1))
        · exact le_trans (by omega) (ih (pos + 1))
      · split
        · omega
        · exact le_trans (by omega) (ih (pos + 1))
    · exact le_refl _

theorem rstrGo_le (doc : List Nat) (q : Nat) : ∀ fuel pos, pos ≤ doc.length →
    (rstrGo doc q fuel pos).2 ≤ doc.length := by
  intro fuel
  induction fuel with
  | zero => intro pos h; simpa [rstrGo] using h
  | succ f ih =>
    intro pos h
    simp only [rstrGo]
    split
    · rename_i hlt
      split
      · split
        · rename_i h2
          exact ih (pos + 1 + 1) (by omega)
        · exact ih (pos + 1) (by omega)
      · split
        · omega
        · exact ih (pos + 1) (by omega)
    · exact h

theorem readNumberScan_mono (doc : List Nat) (ci : Bool) (pos : Nat) :
    pos ≤ (readNumberScan doc ci pos).2 := by
  simp only [readNumberScan]
  split
  · simp
  · have h1 := digitRunEnd_mono doc pos
    split
    · have h2 := digitRunEnd_mono doc (digitRunEnd doc pos + 1)
      split
      · split
        · have h3 := digitRunEnd_mono doc (digitRunEnd doc (digitRunEnd doc pos + 1) + 2)
          simp only
          omega
        · have h3 := digitRunEnd_mono doc (digitRunEnd doc (digitRunEnd doc pos + 1) + 1)
          simp only
          omega
      · simp only
        omega
    · split
      · split
        · have h3 := digitRunEnd_mono doc (digitRunEnd doc pos + 2)
          simp only
          omega
        · have h3 := digitRunEnd_mono doc (digitRunEnd doc pos + 1)
          simp only
          omega
      · simpa using h1

theorem readNumberScan_le (doc : List Nat) (ci : Bool) (pos : Nat) (h : pos ≤ doc.length) :
    (readNumberScan doc ci pos).2 ≤ doc.length := by
  simp only [readNumberScan]
  split
  · rename_i hg
    simp only
    omega
  · have h1 := digitRunEnd_le doc pos h
    split
    · rename_i hg
      have h2 := digitRunEnd_le doc (digitRunEnd doc pos + 1) (by omega)
      split
      · rename_i hg2
        split
        · rename_i hg3
          exact digitRunEnd_le doc _ (by omega)
        · exact digitRunEnd_le doc _ (by omega)
      · exact h2
    · split
      · rename_i hg2
        split
        · rename_i hg3
          exact digitRunEnd_le doc _ (by omega)
        · exact digitRunEnd_le doc _ (by omega)
      · exact h1

theorem readComment_mono (ctx : Ctx) (cur : Cursor) (pos : Nat) :
    pos ≤ (readComment ctx cur pos).2.pos := by
  simp only [readComment]
  cases hg : getNextChar ctx.doc pos with
  | mk c p1 =>
    have hp1 : pos ≤ p1 := by
      have := getNextChar_mono ctx.doc pos
      rw [hg] at this
      exact this
    by_cases hc : c = 42
    · simp only [if_pos hc]
      cases h2 : readCStyleComment ctx.doc p1 with
      | mk succ p2 =>
        have ha : p1 ≤ p2 := by
          have := readCStyleComment_mono ctx.doc p1
          rw [h2] at this
          exact this
        repeat' split
        all_goals dsimp only
        all_goals omega
    · simp only [if_neg hc]
      by_cases hc2 : c = 47
      · simp only [if_pos hc2]
        cases h2 : readCppStyleComment ctx.doc p1 with
        | mk succ p2 =>
          have ha : p1 ≤ p2 := by
            have := readCppStyleComment_mono ctx.doc p1
            rw [h2] at this
            exact this
          repeat' split
          all_goals dsimp only
          all_goals omega
      · simp only [if_neg hc2]
        repeat' split
        all_goals dsimp only
        all_goals omega

theorem readComment_le (ctx : Ctx) (cur : Cursor) (pos : Nat) (h : pos ≤ ctx.doc.length) :
    (readComment ctx cur pos).2.pos ≤ ctx.doc.length := by
  simp only [readComment]
  cases hg : getNextChar ctx.doc pos with
  | mk c p1 =>
    have hp1 : p1 ≤ ctx.doc.length := by
      have := getNextChar_le ctx.doc pos h
      rw [hg] at this
      exact this
    by_cases hc : c = 42
    · simp only [if_pos hc]
      cases h2 : readCStyleComment ctx.doc p1 with
      | mk succ p2 =>
        have ha : p2 ≤ ctx.doc.length := by
          have := readCStyleComment_le ctx.doc p1 hp1
          rw [h2] at this
          exact this
        repeat' split
        all_goals dsimp only
        all_goals omega
    · simp only [if_neg hc]
      by_cases hc2 : c = 47
      · simp only [if_pos hc2]
        cases h2 : readCppStyleComment ctx.doc p1 with
        | mk succ p2 =>
          have ha : p2 ≤ ctx.doc.length := by
            have := readCppStyleComment_le ctx.doc p1 hp1
            rw [h2] at this
            exact this
          repeat' split
          all_goals dsimp only
          all_goals omega
      · simp only [if_neg hc2]
        repeat' split
        all_goals dsimp only
        all_goals omega

theorem getNextChar_ne (doc : List Nat) (pos : Nat) (h : (getNextChar doc pos).1 ≠ 0) :
    (getNextChar doc pos).2 = pos + 1 := by
  by_cases hp : pos < doc.length
  · rw [getNextChar]
    simp [hp]
  · exfalso
    apply h
    rw [getNextChar]
    simp [hp]

theorem readStringScan_mono (doc : List Nat) (pos : Nat) :
    pos ≤ (readStringScan doc pos).2 := rstrGo_mono doc 34 _ pos

theorem readStringScan_le (doc : List Nat) (pos : Nat) (h : pos ≤ doc.length) :
    (readStringScan doc pos).2 ≤ doc.length := rstrGo_le doc 34 _ pos h

theorem readStringSingleQuoteScan_mono (doc : List Nat) (pos : Nat) :
    pos ≤ (readStringSingleQuoteScan doc pos).2 := rstrGo_mono doc 39 _ pos

theorem readStringSingleQuoteScan_le (doc : List Nat) (pos : Nat) (h : pos ≤ doc.length) :
    (readStringSingleQuoteScan doc pos).2 ≤ doc.length := rstrGo_le doc 39 _ pos h

set_option maxHeartbeats 4000000 in
theorem readTokenDispatch_mono (ctx : Ctx) (cur : Cursor) (c : Nat) (pos : Nat) :
    pos ≤ (readTokenDispatch ctx cur c pos).2.2.pos := by
  unfold readTokenDispatch readTokenCommentCase
  have m1 : pos ≤ (readStringScan ctx.doc pos).2 := readStringScan_mono _ _
  have m2 : pos ≤ (readStringSingleQuoteScan ctx.doc pos).2 := readStringSingleQuoteScan_mono _ _
  have m3 : pos ≤ (readComment ctx cur pos).2.pos := readComment_mono _ _ _
  have m4 : pos ≤ (readNumberScan ctx.doc false pos).2 := readNumberScan_mono _ _ _
  have m5 : pos ≤ (readNumberScan ctx.doc true pos).2 := readNumberScan_mono _ _ _
  have m6 : pos ≤ (matchPat ctx.doc pos (bytes "rue")).2 := matchPat_mono _ _ _
  have m7 : pos ≤ (matchPat ctx.doc pos (bytes "alse")).2 := matchPat_mono _ _ _
  have m8 : pos ≤ (matchPat ctx.doc pos (bytes "ull")).2 := matchPat_mono _ _ _
  have m9 : pos ≤ (matchPat ctx.doc pos (bytes "aN")).2 := matchPat_mono _ _ _
  have m10 : pos ≤ (matchPat ctx.doc pos (bytes "nfinity")).2 := matchPat_mono _ _ _
  have m11 : (readNumberScan ctx.doc true pos).2 ≤
      (matchPat ctx.doc (readNumberScan ctx.doc true pos).2 (bytes "nfinity")).2 :=
    matchPat_mono _ _ _
  repeat' split
  all_goals try dsimp only
  all_goals try split
  all_goals try dsimp only
  all_goals omega

set_option maxHeartbeats 4000000 in
theorem readTokenDispatch_le (ctx : Ctx) (cur : Cursor) (c : Nat) (pos : Nat)
    (h : pos ≤ ctx.doc.length) :
    (readTokenDispatch ctx cur c pos).2.2.pos ≤ ctx.doc.length := by
  unfold readTokenDispatch readTokenCommentCase
  have m1 : (readStringScan ctx.doc pos).2 ≤ ctx.doc.length := readStringScan_le _ _ h
  have m2 : (readStringSingleQuoteScan ctx.doc pos).2 ≤ ctx.doc.length :=
    readStringSingleQuoteScan_le _ _ h
  have m3 : (readComment ctx cur pos).2.pos ≤ ctx.doc.length := readComment_le _ _ _ h
  have m4 : (readNumberScan ctx.doc false pos).2 ≤ ctx.doc.length := readNumberScan_le _ _ _ h
  have m5 : (readNumberScan ctx.doc true pos).2 ≤ ctx.doc.length := readNumberScan_le _ _ _ h
  have m6 : (matchPat ctx.doc pos (bytes "rue")).2 ≤ ctx.doc.length := matchPat_le _ _ _ h
  have m7 : (matchPat ctx.doc pos (bytes "alse")).2 ≤ ctx.doc.length := matchPat_le _ _ _ h
  have m8 : (matchPat ctx.doc pos (bytes "ull")).2 ≤ ctx.doc.length := matchPat_le _ _ _ h
  have m9 : (matchPat ctx.doc pos (bytes "aN")).2 ≤ ctx.doc.length := matchPat_le _ _ _ h
  have m10 : (matchPat ctx.doc pos (bytes "nfinity")).2 ≤ ctx.doc.length := matchPat_le _ _ _ h
  have m11 : (matchPat ctx.doc (readNumberScan ctx.doc true pos).2 (bytes "nfinity")).2 ≤
      ctx.doc.length := matchPat_le _ _ _ (readNumberScan_le _ _ _ h)
  repeat' split
  all_goals try dsimp only
  all_goals try split
  all_goals try dsimp only
  all_goals omega

theorem readToken_advance (ctx : Ctx) (cur : Cursor) :
    (readToken ctx cur).1.type = TokType.endOfStream ∨
      cur.pos < (readToken ctx cur).2.pos := by
  simp only [readToken]
  have hs1 : cur.pos ≤ skipSpaces ctx.doc cur.pos := skipSpaces_mono _ _
  by_cases hc : (getNextChar ctx.doc (skipSpaces ctx.doc cur.pos)).1 = 0
  · left
    rw [hc]
    rfl
  · right
    have hp1 : (getNextChar ctx.doc (skipSpaces ctx.doc cur.pos)).2 =
        skipSpaces ctx.doc cur.pos + 1 := getNextChar_ne _ _ hc
    have hm := readTokenDispatch_mono ctx cur
      (getNextChar ctx.doc (skipSpaces ctx.doc cur.pos)).1
      (getNextChar ctx.doc (skipSpaces ctx.doc cur.pos)).2
    try dsimp only
    omega

theorem readToken_le (ctx : Ctx) (cur : Cursor) (h : cur.pos ≤ ctx.doc.length) :
    (readToken ctx cur).2.pos ≤ ctx.doc.length := by
  simp only [readToken]
  have hs2 : skipSpaces ctx.doc cur.pos ≤ ctx.doc.length := skipSpaces_le _ _ h
  have hp1 : (getNextChar ctx.doc (skipSpaces ctx.doc cur.pos)).2 ≤ ctx.doc.length :=
    getNextChar_le _ _ hs2
  exact readTokenDispatch_le ctx cur _ _ hp1

/-! ## C7: error recovery -/

theorem nthCursor_zero (ctx : Ctx) (cur : Cursor) : nthCursor ctx cur 0 = cur := rfl

theorem nthCursor_succ (ctx : Ctx) (cur : Cursor) (n : Nat) :
    nthCursor ctx cur (n + 1) = nthCursor ctx (readToken ctx cur).2 n := rfl

theorem nthToken_zero (ctx : Ctx) (cur : Cursor) :
    nthToken ctx cur 0 = (readToken ctx cur).1 := rfl

theorem nthToken_succ (ctx : Ctx) (cur : Cursor) (n : Nat) :
    nthToken ctx cur (n + 1) = nthToken ctx (readToken ctx cur).2 n := rfl

theorem recoverGo_spec (ctx : Ctx) (u : TokType) (ec : Nat) :
    ∀ (fuel : Nat) (st : PState) (b : Bool) (st2 : PState),
      recoverGo ctx u ec fuel st = .ok (b, st2) →
      b = false ∧ st2.errors = st.errors.take ec ∧
      ∃ n, (∀ i < n, ¬ ((nthToken ctx st.cur i).type = u ∨
              (nthToken ctx st.cur i).type = TokType.endOfStream)) ∧
        ((nthToken ctx st.cur n).type = u ∨
          (nthToken ctx st.cur n).type = TokType.endOfStream) ∧
        st2.cur = nthCursor ctx st.cur (n + 1) := by
  intro fuel
  induction fuel with
  | zero =>
    intro st b st2 h
    exact absurd h (by simp [recoverGo])
  | succ f ih =>
    intro st b st2 h
    rw [recoverGo] at h
    cases hrt : readToken ctx st.cur with
    | mk tok cur' =>
      rw [hrt] at h
      dsimp only at h
      by_cases hstop : tok.type = u ∨ tok.type = TokType.endOfStream
      · rw [if_pos hstop, Except.ok.injEq, Prod.mk.injEq] at h
        obtain ⟨hb, hst⟩ := h
        refine ⟨hb.symm, ?_, 0, ?_, ?_, ?_⟩
        · rw [← hst]
        · intro i hi
          omega
        · rw [nthToken_zero, hrt]
          exact hstop
        · rw [← hst]
          rw [nthCursor_succ, nthCursor_zero, hrt]
      · rw [if_neg hstop] at h
        obtain ⟨hb, herr, n, hall, hstopn, hcur⟩ := ih { st with cur := cur' } b st2 h
        refine ⟨hb, herr, n + 1, ?_, ?_, ?_⟩
        · intro i hi
          cases i with
          | zero =>
            rw [nthToken_zero, hrt]
            exact hstop
          | succ j =>
            have hj := hall j (by omega)
            rw [nthToken_succ, hrt]
            exact hj
        · rw [nthToken_succ, hrt]
          exact hstopn
        · rw [hcur, nthCursor_succ ctx st.cur, hrt]

theorem recoverGo_sufficient (ctx : Ctx) (u : TokType) (ec : Nat) :
    ∀ (fuel : Nat) (st : PState), st.cur.pos ≤ ctx.doc.length →
      ctx.doc.length + 1 ≤ fuel + st.cur.pos →
      ∃ r, recoverGo ctx u ec fuel st = .ok r := by
  intro fuel
  induction fuel with
  | zero =>
    intro st h1 h2
    omega
  | succ f ih =>
    intro st h1 h2
    rw [recoverGo]
    cases hrt : readToken ctx st.cur with
    | mk tok cur' =>
      dsimp only
      by_cases hstop : tok.type = u ∨ tok.type = TokType.endOfStream
      · rw [if_pos hstop]
        exact ⟨_, rfl⟩
      · rw [if_neg hstop]
        have hadv : st.cur.pos < cur'.pos := by
          rcases readToken_advance ctx st.cur with h | h
          · rw [hrt] at h
            exact absurd (Or.inr h) hstop
          · rw [hrt] at h
            exact h
        have hle : cur'.pos ≤ ctx.doc.length := by
          have := readToken_le ctx st.cur h1
          rw [hrt] at this
          exact this
        exact ih { st with cur := cur' } hle (by dsimp only; omega)

/-- C7: `recoverFromError(until_kind)` reads tokens until a token of
`until_kind` or EndOfStream appears and consumes it, always returns
false, and restores the error journal to its size before recovery began,
so that errors accumulated during recovery tokenization are discarded
while every error reported before recovery began is preserved (reading
tokens journals no errors, so the journal is returned exactly as it
was).  The second conjunct shows the recovery loop always terminates:
any fuel beyond the remaining document length yields a result, so the
properties are not vacuous. -/
theorem C7_recover_from_error :
    (∀ (fuel : Nat) (ctx : Ctx) (u : TokType) (st : PState) (b : Bool) (st2 : PState),
      recoverFromErrorF fuel ctx u st = .ok (b, st2) →
      b = false ∧ st2.errors = st.errors ∧
      ∃ n, (∀ i < n, ¬ ((nthToken ctx st.cur i).type = u ∨
              (nthToken ctx st.cur i).type = TokType.endOfStream)) ∧
        ((nthToken ctx st.cur n).type = u ∨
          (nthToken ctx st.cur n).type = TokType.endOfStream) ∧
        st2.cur = nthCursor ctx st.cur (n + 1)) ∧
    (∀ (fuel : Nat) (ctx : Ctx) (u : TokType) (st : PState),
      st.cur.pos ≤ ctx.doc.length → ctx.doc.length + 1 ≤ fuel + st.cur.pos →
      ∃ r, recoverFromErrorF fuel ctx u st = .ok r) := by
  constructor
  · intro fuel ctx u st b st2 h
    obtain ⟨hb, herr, hrest⟩ := recoverGo_spec ctx u st.errors.length fuel st b st2 h
    refine ⟨hb, ?_, hrest⟩
    rw [herr, List.take_length]
  · intro fuel ctx u st h1 h2
    exact recoverGo_sufficient ctx u st.errors.length fuel st h1 h2

theorem C7_recover_from_error_witness :
    false = false ∧ (⟨⟨1, [], none⟩, []⟩ : PState).errors = initState.errors :=
  ⟨(C7_recover_from_error.1 3 (mkCtx defaultFeatures true (bytes "]")) TokType.arrayEnd
      initState false ⟨⟨1, [], none⟩, []⟩ rfl).1,
   (C7_recover_from_error.1 3 (mkCtx defaultFeatures true (bytes "]")) TokType.arrayEnd
      initState false ⟨⟨1, [], none⟩, []⟩ rfl).2.1⟩

/-! ## C2: number decoding -/

theorem natFold_nil (v : Nat) : natFold v [] = v := rfl

theorem natFold_cons (v c : Nat) (ds : List Nat) :
    natFold v (c :: ds) = natFold (v * 10 + (c - 48)) ds := rfl

theorem natFold_ge (ds : List Nat) : ∀ v, v ≤ natFold v ds := by
  induction ds with
  | nil => intro v; simp [natFold_nil]
  | cons c r ih =>
    intro v
    rw [natFold_cons]
    exact le_trans (by omega) (ih (v * 10 + (c - 48)))

theorem natFold_ge10 (c : Nat) (ds : List Nat) (v : Nat) :
    v * 10 ≤ natFold v (c :: ds) := by
  rw [natFold_cons]
  exact le_trans (by omega) (natFold_ge ds (v * 10 + (c - 48)))

theorem isDigitByte_iff (c : Nat) : isDigitByte c = true ↔ 48 ≤ c ∧ c ≤ 57 := by
  simp [isDigitByte]

theorem decNumLoop_complete (max : Nat) (hmax : 10 ≤ max) :
    ∀ (ds : List Nat) (v : Nat), (∀ d ∈ ds, isDigitByte d) → natFold v ds ≤ max →
      decNumLoop max (max / 10) ds v = some (natFold v ds) := by
  intro ds
  induction ds with
  | nil => intro v _ _; rfl
  | cons c rest ih =>
    intro v hdig hle
    have hd : isDigitByte c := hdig c (by simp)
    have hd' : 48 ≤ c ∧ c ≤ 57 := (isDigitByte_iff c).mp hd
    have hmod : max % 10 + 10 * (max / 10) = max := Nat.mod_add_div max 10
    have hmodlt : max % 10 < 10 := Nat.mod_lt max (by omega)
    have hthr : 1 ≤ max / 10 := by omega
    rw [natFold_cons] at hle
    have hgrow : v * 10 + (c - 48) ≤ natFold (v * 10 + (c - 48)) rest := natFold_ge _ _
    rw [decNumLoop]
    rw [if_neg (by simp [hd])]
    have hguard : ¬ (v ≥ max / 10 ∧
        (v > max / 10 ∨ rest ≠ [] ∨ c - 48 > max % 10)) := by
      rintro ⟨hge, hcase⟩
      rcases hcase with hgt | hne | hbig
      · omega
      · obtain ⟨c2, r2, rfl⟩ : ∃ c2 r2, rest = c2 :: r2 := by
          cases rest with
          | nil => exact absurd rfl hne
          | cons a b => exact ⟨a, b, rfl⟩
        have := natFold_ge10 c2 r2 (v * 10 + (c - 48))
        omega
      · omega
    rw [if_neg hguard]
    exact ih (v * 10 + (c - 48)) (fun d hdm => hdig d (by simp [hdm])) hle

theorem decNumLoop_sound (max : Nat) (hmax : 10 ≤ max) :
    ∀ (ds : List Nat) (v out : Nat),
      decNumLoop max (max / 10) ds v = some out →
      out = natFold v ds ∧ (ds ≠ [] → out ≤ max) := by
  intro ds
  induction ds with
  | nil =>
    intro v out h
    rw [decNumLoop, Option.some.injEq] at h
    exact ⟨h.symm, fun hne => absurd rfl hne⟩
  | cons c rest ih =>
    intro v out h
    rw [decNumLoop] at h
    by_cases hd : isDigitByte c
    · rw [if_neg (by simp [hd])] at h
      have hd' : 48 ≤ c ∧ c ≤ 57 := (isDigitByte_iff c).mp hd
      have hmod : max % 10 + 10 * (max / 10) = max := Nat.mod_add_div max 10
      have hmodlt : max % 10 < 10 := Nat.mod_lt max (by omega)
      have hthr : 1 ≤ max / 10 := by omega
      by_cases hguard : (v ≥ max / 10 ∧
          (v > max / 10 ∨ rest ≠ [] ∨ c - 48 > max % 10))
      · rw [if_pos hguard] at h
        exact absurd h (by simp)
      · rw [if_neg hguard] at h
        obtain ⟨hout, hbound⟩ := ih (v * 10 + (c - 48)) out h
        refine ⟨by rw [natFold_cons]; exact hout, fun _ => ?_⟩
        cases hrest : rest with
        | nil =>
          subst hrest
          rw [natFold_nil] at hout
          rw [Decidable.not_and_iff_or_not] at hguard
          rcases hguard with hlt | hdisj
          · omega
          · push_neg at hdisj
            omega
        | cons c2 r2 =>
          exact hbound (by simp [hrest])
    · rw [if_pos (by simp [hd])] at h
      exact absurd h (by simp)

theorem i64wrap_small (i : Int) (h1 : -(2 ^ 63) ≤ i) (h2 : i < 2 ^ 63) : i64wrap i = i := by
  have hp : (2 : Int) ^ 63 = 9223372036854775808 := by norm_num
  have hq : (2 : Int) ^ 64 = 18446744073709551616 := by norm_num
  unfold i64wrap
  rw [hp, hq] at *
  rw [Int.emod_eq_of_lt (by omega) (by omega)]
  omega

theorem i64wrap_min : i64wrap (2 ^ 63) = -(2 ^ 63) := by
  have hp : (2 : Int) ^ 63 = 9223372036854775808 := by norm_num
  have hq : (2 : Int) ^ 64 = 18446744073709551616 := by norm_num
  unfold i64wrap
  rw [hp, hq]
  decide

theorem i64_decode_neg (v : Nat) (h : v ≤ 2 ^ 63) :
    i64wrap (-(i64wrap (v : Int))) = -(v : Int) := by
  have hv : (v : Int) ≤ (2 : Int) ^ 63 := by exact_mod_cast h
  by_cases he : v = 2 ^ 63
  · subst he
    have h1 : ((2 ^ 63 : Nat) : Int) = 2 ^ 63 := by norm_num
    rw [h1, i64wrap_min, neg_neg, i64wrap_min]
  · have hlt : (v : Int) < 2 ^ 63 := by
      have : v < 2 ^ 63 := lt_of_le_of_ne h he
      exact_mod_cast this
    have h0 : (0 : Int) ≤ (v : Int) := Int.natCast_nonneg v
    have hp : (2 : Int) ^ 63 = 9223372036854775808 := by norm_num
    rw [i64wrap_small (v : Int) (by omega) hlt]
    rw [i64wrap_small (-(v : Int)) (by omega) (by omega)]

/-- C2 counterexample: the literal `12345678901234567890` fits the
64-bit unsigned accumulator (it is below `maxLargestUInt`), so the
integer path succeeds and the root is an unsigned integer, not a double
as the claim states. -/
theorem C2_counterexample_uint_not_double :
    resPlain (parseF 30 defaultFeatures true (bytes "12345678901234567890")) =
      some (.uintV 12345678901234567890) ∧
    resPlain (parseF 30 defaultFeatures true (bytes "12345678901234567890")) ≠
      some (.doubleV (bytes "12345678901234567890")) := by
  constructor
  · rfl
  · intro h
    rw [show resPlain (parseF 30 defaultFeatures true (bytes "12345678901234567890")) =
        some (PVal.uintV 12345678901234567890) from rfl] at h
    simp at h

/-- C2 (amended): for every numeric token of an optional `-` followed
only by digits whose magnitude does not exceed the allowed maximum
(`|minimum signed integer| = 2^63` when negative, `2^64 - 1` otherwise),
the decoder produces a signed integer when negative, a signed integer
when the value fits the positive signed range, and an unsigned integer
otherwise; literals exceeding the maximum fall back to the double path
(`decodeNumberPayload = none` defers to `decodeDouble`).  Concretely:
`9223372036854775807` decodes to the positive signed maximum,
`-9223372036854775808` to the negative signed minimum,
`12345678901234567890` to an unsigned integer (amended: it fits the
unsigned range, so it does not reach the double path), and
`99999999999999999999` overflows to a double. -/
theorem C2_number_decoding_amended :
    (∀ (neg : Bool) (ds : List Nat), ds ≠ [] → (∀ d ∈ ds, isDigitByte d) →
      (natOfDigits ds ≤ (if neg then 2 ^ 63 else 2 ^ 64 - 1) →
        decodeNumberPayload ((if neg then [45] else []) ++ ds) =
          some (if neg then JPayload.intV (-(natOfDigits ds : Int))
            else if natOfDigits ds ≤ 2 ^ 63 - 1 then JPayload.intV (natOfDigits ds : Int)
            else JPayload.uintV (natOfDigits ds))) ∧
      ((if neg then 2 ^ 63 else 2 ^ 64 - 1) < natOfDigits ds →
        decodeNumberPayload ((if neg then [45] else []) ++ ds) = none)) ∧
    resPlain (parseF 30 defaultFeatures true (bytes "9223372036854775807")) =
      some (.intV 9223372036854775807) ∧
    resPlain (parseF 30 defaultFeatures true (bytes "-9223372036854775808")) =
      some (.intV (-9223372036854775808)) ∧
    resPlain (parseF 30 defaultFeatures true (bytes "12345678901234567890")) =
      some (.uintV 12345678901234567890) ∧
    resPlain (parseF 30 defaultFeatures true (bytes "99999999999999999999")) =
      some (.doubleV (bytes "99999999999999999999")) := by
  refine ⟨?_, rfl, rfl, rfl, rfl⟩
  intro neg ds hne hdig
  cases neg with
  | true =>
    simp only [if_true, List.singleton_append]
    constructor
    · intro hle
      unfold decodeNumberPayload
      simp only [List.head?_cons, Option.some.injEq, List.tail_cons, if_true]
      have hfold := decNumLoop_complete minLargestIntMagnitude (by norm_num [minLargestIntMagnitude])
        ds 0 hdig (by rw [show natFold 0 ds = natOfDigits ds from rfl]
                      simpa [minLargestIntMagnitude] using hle)
      rw [hfold]
      rw [show natFold 0 ds = natOfDigits ds from rfl]
      dsimp only
      rw [i64_decode_neg (natOfDigits ds) (by simpa using hle)]
    · intro hgt
      unfold decodeNumberPayload
      simp only [List.head?_cons, Option.some.injEq, List.tail_cons, if_true]
      cases hdl : decNumLoop minLargestIntMagnitude (minLargestIntMagnitude / 10) ds 0 with
      | none => rfl
      | some out =>
        obtain ⟨hout, hbound⟩ := decNumLoop_sound minLargestIntMagnitude
          (by norm_num [minLargestIntMagnitude]) ds 0 out hdl
        have := hbound hne
        rw [hout] at this
        rw [show natFold 0 ds = natOfDigits ds from rfl] at this
        simp only [minLargestIntMagnitude] at this
        omega
  | false =>
    simp only [Bool.false_eq_true, if_false, List.nil_append]
    have hneg45 : ¬ (ds.head? = some 45) := by
      cases ds with
      | nil => exact absurd rfl hne
      | cons d r =>
        have := (isDigitByte_iff d).mp (hdig d (by simp))
        simp only [List.head?_cons, Option.some.injEq]
        omega
    constructor
    · intro hle
      unfold decodeNumberPayload
      dsimp only
      rw [if_neg hneg45, if_neg hneg45]
      have hfold := decNumLoop_complete maxLargestUInt (by norm_num [maxLargestUInt])
        ds 0 hdig (by rw [show natFold 0 ds = natOfDigits ds from rfl]
                      simpa [maxLargestUInt] using hle)
      rw [hfold]
      dsimp only
      rw [if_neg hneg45]
      rw [show natFold 0 ds = natOfDigits ds from rfl]
      by_cases hv : natOfDigits ds ≤ valueMaxInt
      · rw [if_pos hv, if_pos (by simpa [valueMaxInt] using hv)]
        rw [i64wrap_small (natOfDigits ds : Int)
          (by have := Int.natCast_nonneg (natOfDigits ds)
              have hp : (2 : Int) ^ 63 = 9223372036854775808 := by norm_num
              omega)
          (by have : natOfDigits ds < 2 ^ 63 := by simp only [valueMaxInt] at hv; omega
              exact_mod_cast this)]
      · rw [if_neg hv, if_neg (by simpa [valueMaxInt] using hv)]
    · intro hgt
      unfold decodeNumberPayload
      dsimp only
      rw [if_neg hneg45, if_neg hneg45]
      cases hdl : decNumLoop maxLargestUInt (maxLargestUInt / 10) ds 0 with
      | none => rfl
      | some out =>
        obtain ⟨hout, hbound⟩ := decNumLoop_sound maxLargestUInt
          (by norm_num [maxLargestUInt]) ds 0 out hdl
        have := hbound hne
        rw [hout] at this
        rw [show natFold 0 ds = natOfDigits ds from rfl] at this
        simp only [maxLargestUInt] at this
        omega

theorem C2_number_decoding_amended_witness :
    decodeNumberPayload ((if true then [45] else []) ++ [49]) =
      some (if true then JPayload.intV (-(natOfDigits [49] : Int))
        else if natOfDigits [49] ≤ 2 ^ 63 - 1 then JPayload.intV (natOfDigits [49] : Int)
        else JPayload.uintV (natOfDigits [49])) :=
  (C2_number_decoding_amended.1 true [49] (by decide) (by decide)).1 (by decide)
/-! ## C8: the location map -/

theorem length_takeWhile_le_self (p : Nat → Bool) (l : List Nat) :
    (l.takeWhile p).length ≤ l.length := by
  induction l with
  | nil => simp [List.takeWhile]
  | cons x r ih =>
    rw [List.takeWhile_cons]
    split
    · simpa using ih
    · simp

theorem eolFree_iff (l : List Nat) :
    eolFree l = true ↔ ∀ c ∈ l, c ≠ 13 ∧ c ≠ 10 := by
  simp [eolFree]

theorem takeWhile_eol_eq_self_iff (l : List Nat) :
    (l.takeWhile (fun c => c ≠ 13 ∧ c ≠ 10) = l) ↔ eolFree l = true := by
  rw [List.takeWhile_eq_self_iff, eolFree_iff]
  constructor
  · intro h c hc
    simpa using h c hc
  · intro h c hc
    simpa using h c hc

theorem eolFree_reverse (l : List Nat) : eolFree l.reverse = eolFree l := by
  simp [eolFree, List.all_reverse]

theorem colLen_le (l : List Nat) : colLen l ≤ l.length := by
  rw [colLen]
  calc (l.reverse.takeWhile _).length ≤ l.reverse.length := length_takeWhile_le_self _ _
  _ = l.length := List.length_reverse l

theorem eolFree_colLen (l : List Nat) (h : eolFree l = true) : colLen l = l.length := by
  rw [colLen]
  rw [show l.reverse.takeWhile (fun c => decide (c ≠ 13 ∧ c ≠ 10)) = l.reverse from
    (takeWhile_eol_eq_self_iff l.reverse).mpr (by rw [eolFree_reverse]; exact h)]
  exact List.length_reverse l

theorem takeWhile_append_single (p : Nat → Bool) (xs : List Nat) (a : Nat) :
    (xs ++ [a]).takeWhile p =
      if xs.takeWhile p = xs then (if p a then xs ++ [a] else xs) else xs.takeWhile p := by
  induction xs with
  | nil =>
    simp [List.takeWhile]
    split <;> simp_all
  | cons x rest ih =>
    by_cases hx : p x
    · by_cases h1 : rest.takeWhile p = rest
      · by_cases ha : p a
        · simp [List.takeWhile_cons, hx, ih, h1, ha]
        · simp [List.takeWhile_cons, hx, ih, h1, ha]
      · simp [List.takeWhile_cons, hx, ih, h1]
    · simp [List.takeWhile_cons, hx]

theorem colLen_cons_eol (c : Nat) (r : List Nat) (h : c = 13 ∨ c = 10) :
    colLen (c :: r) = colLen r := by
  rw [colLen, colLen, List.reverse_cons, takeWhile_append_single]
  have hpc : decide (c ≠ 13 ∧ c ≠ 10) = false := by
    rcases h with h | h <;> subst h <;> decide
  split
  · rename_i heq
    rw [hpc, if_neg Bool.false_ne_true, heq]
  · rfl

theorem colLen_cons_noneol (c : Nat) (r : List Nat) (h13 : c ≠ 13) (h10 : c ≠ 10) :
    colLen (c :: r) = if eolFree r then r.length + 1 else colLen r := by
  rw [colLen, colLen, List.reverse_cons, takeWhile_append_single]
  have hpc : decide (c ≠ 13 ∧ c ≠ 10) = true := by
    simp only [ne_eq, decide_eq_true_eq]
    exact ⟨h13, h10⟩
  by_cases hfree : eolFree r
  · rw [if_pos ((takeWhile_eol_eq_self_iff r.reverse).mpr (by rw [eolFree_reverse]; exact hfree))]
    rw [hpc, if_pos rfl, if_pos hfree]
    simp
  · rw [if_neg (fun hcon => hfree ((eolFree_reverse r) ▸ (takeWhile_eol_eq_self_iff r.reverse).mp hcon))]
    rw [if_neg hfree]

theorem countEols_cr_step (r : List Nat) (h : ∀ t, r ≠ 10 :: t) :
    countEols (13 :: r) = countEols r + 1 := by
  match r with
  | [] => rfl
  | c :: t =>
    have hc : c ≠ 10 := fun hcon => h t (by rw [hcon])
    simp [countEols, hc]

theorem countEols_other_step (c : Nat) (r : List Nat) (h13 : c ≠ 13) (h10 : c ≠ 10) :
    countEols (c :: r) = countEols r := by
  simp [countEols, h13, h10]

theorem countEols_le (l : List Nat) : countEols l ≤ l.length := by
  induction l using countEols.induct with
  | case1 => simp [countEols]
  | case2 r ih =>
    rw [countEols]
    simp only [List.length_cons]
    omega
  | case3 r h ih =>
    rw [countEols_cr_step r (fun t hcon => h t hcon)]
    simp only [List.length_cons]
    omega
  | case4 r ih =>
    rw [countEols]
    simp only [List.length_cons]
    omega
  | case5 c r hj h13 h10 ih =>
    rw [countEols_other_step c r (fun hc => h13 hc) (fun hc => h10 hc)]
    simp only [List.length_cons]
    omega

theorem glL_cr_step (r : List Nat) (pos x line : Nat) (h : ∀ t, r ≠ 10 :: t) :
    glL (13 :: r) pos x line = glL r (pos + 1) (pos + 1) (line + 1) := by
  match r with
  | [] => simp [glL]
  | c :: t =>
    have hc : c ≠ 10 := fun hcon => h t (by rw [hcon])
    simp [glL, hc]

theorem glL_other_step (c : Nat) (r : List Nat) (pos lls line : Nat)
    (h13 : c ≠ 13) (h10 : c ≠ 10) :
    glL (c :: r) pos lls line = glL r (pos + 1) lls line := by
  simp [glL, h13, h10]

theorem glL_spec (l : List Nat) (pos lls line : Nat) :
    glL l pos lls line =
      ((if eolFree l then lls else pos + (l.length - colLen l)), line + countEols l) := by
  induction l, pos, lls, line using glL.induct with
  | case1 x lls line => simp [glL, eolFree, countEols]
  | case2 r pos x line ih =>
    rw [glL, ih]
    have hc13 : colLen (13 :: 10 :: r) = colLen r := by
      rw [colLen_cons_eol 13 (10 :: r) (Or.inl rfl), colLen_cons_eol 10 r (Or.inr rfl)]
    have hf : eolFree (13 :: 10 :: r) = false := by simp [eolFree]
    have hcr : countEols (13 :: 10 :: r) = countEols r + 1 := by rw [countEols]
    rw [hf, hcr, hc13, if_neg Bool.false_ne_true]
    simp only [Prod.mk.injEq, List.length_cons]
    have hle := colLen_le r
    refine ⟨?_, by omega⟩
    by_cases hfr : eolFree r
    · have h2 := eolFree_colLen r hfr
      rw [if_pos hfr]
      omega
    · rw [if_neg hfr]
      omega
  | case3 r pos x line h ih =>
    rw [glL_cr_step r pos x line (fun t hcon => h t hcon), ih]
    have hc : colLen (13 :: r) = colLen r := colLen_cons_eol 13 r (Or.inl rfl)
    have hf : eolFree (13 :: r) = false := by simp [eolFree]
    have hcr : countEols (13 :: r) = countEols r + 1 :=
      countEols_cr_step r (fun t hcon => h t hcon)
    rw [hf, hcr, hc, if_neg Bool.false_ne_true]
    simp only [Prod.mk.injEq, List.length_cons]
    have hle := colLen_le r
    refine ⟨?_, by omega⟩
    by_cases hfr : eolFree r
    · have h2 := eolFree_colLen r hfr
      rw [if_pos hfr]
      omega
    · rw [if_neg hfr]
      omega
  | case4 r pos x line ih =>
    rw [glL, ih]
    have hc : colLen (10 :: r) = colLen r := colLen_cons_eol 10 r (Or.inr rfl)
    have hf : eolFree (10 :: r) = false := by simp [eolFree]
    have hcr : countEols (10 :: r) = countEols r + 1 := by rw [countEols]
    rw [hf, hcr, hc, if_neg Bool.false_ne_true]
    simp only [Prod.mk.injEq, List.length_cons]
    have hle := colLen_le r
    refine ⟨?_, by omega⟩
    by_cases hfr : eolFree r
    · have h2 := eolFree_colLen r hfr
      rw [if_pos hfr]
      omega
    · rw [if_neg hfr]
      omega
  | case5 c r pos lls line hj h13 h10 ih =>
    rw [glL_other_step c r pos lls line (fun hc => h13 hc) (fun hc => h10 hc), ih]
    have hf : eolFree (c :: r) = eolFree r := by
      have hpc : decide (c ≠ 13 ∧ c ≠ 10) = true := by
        simp only [ne_eq, decide_eq_true_eq]
        exact ⟨h13, h10⟩
      simp only [eolFree, List.all_cons, hpc, Bool.true_and]
    have hcr : countEols (c :: r) = countEols r :=
      countEols_other_step c r (fun hc => h13 hc) (fun hc => h10 hc)
    have hcl : colLen (c :: r) = if eolFree r then r.length + 1 else colLen r :=
      colLen_cons_noneol c r (fun hc => h13 hc) (fun hc => h10 hc)
    rw [hf, hcr, hcl]
    simp only [Prod.mk.injEq, List.length_cons]
    have hle := colLen_le r
    refine ⟨?_, trivial⟩
    by_cases hfr : eolFree r
    · simp [hfr]
    · simp only [hfr, Bool.false_eq_true, if_false]
      omega

theorem take_drop_nil (doc : List Nat) (endPos current : Nat) (h : endPos ≤ current) :
    (doc.take endPos).drop current = [] := by
  apply List.drop_eq_nil_of_le
  rw [List.length_take]
  exact le_trans (Nat.min_le_left _ _) h

theorem take_drop_cons (doc : List Nat) (endPos current : Nat)
    (hc : current < endPos) (hend : endPos ≤ doc.length) :
    (doc.take endPos).drop current
      = doc.getD current 0 :: (doc.take endPos).drop (current + 1) := by
  have hlen : (doc.take endPos).length = endPos := by
    rw [List.length_take]
    exact Nat.min_eq_left hend
  have hcl : current < (doc.take endPos).length := by omega
  rw [List.drop_eq_getElem_cons hcl]
  congr 1
  rw [List.getElem_take]
  exact (List.getD_eq_getElem doc 0 (by omega)).symm

theorem glacGo_eq_glL (doc : List Nat) (endPos : Nat) (hend : endPos ≤ doc.length)
    (hstr : ¬(0 < endPos ∧ doc.getD (endPos - 1) 0 = 13 ∧ doc.getD endPos 0 = 10)) :
    ∀ fuel current lls line, endPos ≤ current + fuel →
      glacGo doc endPos fuel current lls line
        = glL ((doc.take endPos).drop current) current lls line := by
  intro fuel
  induction fuel with
  | zero =>
    intro current lls line hf
    rw [take_drop_nil doc endPos current (by omega), glacGo, glL]
  | succ m ih =>
    intro current lls line hf
    by_cases hc : current < endPos
    · have hwin := take_drop_cons doc endPos current hc hend
      rw [glacGo, if_pos hc]
      dsimp only
      by_cases h13 : doc.getD current 0 = 13
      · rw [if_pos h13]
        by_cases h10n : doc.getD (current + 1) 0 = 10
        · rw [if_pos h10n]
          have hlt : current + 1 < endPos := by
            by_contra hcon
            have he1 : endPos - 1 = current := by omega
            have he2 : endPos = current + 1 := by omega
            exact hstr ⟨by omega, by rw [he1]; exact h13, by rw [he2]; exact h10n⟩
          rw [ih (current + 1 + 1) (current + 1 + 1) (line + 1) (by omega)]
          rw [hwin, h13, take_drop_cons doc endPos (current + 1) hlt hend, h10n, glL]
        · rw [if_neg h10n]
          rw [ih (current + 1) (current + 1) (line + 1) (by omega)]
          rw [hwin, h13]
          have hrest : ∀ t, (doc.take endPos).drop (current + 1) ≠ 10 :: t := by
            intro t hcon
            by_cases hlt : current + 1 < endPos
            · rw [take_drop_cons doc endPos (current + 1) hlt hend, List.cons.injEq] at hcon
              exact h10n hcon.1
            · rw [take_drop_nil doc endPos (current + 1) (by omega)] at hcon
              simp at hcon
          rw [glL_cr_step _ current lls line hrest]
      · rw [if_neg h13]
        by_cases h10 : doc.getD current 0 = 10
        · rw [if_pos h10]
          rw [ih (current + 1) (current + 1) (line + 1) (by omega)]
          rw [hwin, h10, glL]
        · rw [if_neg h10]
          rw [ih (current + 1) lls line (by omega)]
          rw [hwin, glL_other_step (doc.getD current 0) _ current lls line h13 h10]
    · rw [glacGo, if_neg hc, take_drop_nil doc endPos current (by omega), glL]

theorem getLocationLineAndColumn_spec (doc : List Nat) (offset : Nat)
    (hle : offset ≤ doc.length)
    (hstr : ¬(0 < offset ∧ doc.getD (offset - 1) 0 = 13 ∧ doc.getD offset 0 = 10)) :
    getLocationLineAndColumn doc offset
      = (countEols (doc.take offset) + 1, colLen (doc.take offset) + 1) := by
  rw [getLocationLineAndColumn]
  dsimp only
  rw [Nat.min_eq_left hle]
  rw [glacGo_eq_glL doc offset hle hstr offset 0 0 0 (by omega)]
  rw [List.drop_zero]
  rw [glL_spec]
  dsimp only
  have hlenT : (doc.take offset).length = offset := by
    rw [List.length_take]
    exact Nat.min_eq_left hle
  have hcle := colLen_le (doc.take offset)
  simp only [Prod.mk.injEq]
  constructor
  · omega
  · by_cases hf : eolFree (doc.take offset)
    · have h2 := eolFree_colLen _ hf
      rw [if_pos hf]
      omega
    · rw [if_neg hf]
      omega

/-- C8 counterexample: at byte offset 1 of the two-byte document CR LF —
an offset that falls between the CR and the LF of a CRLF pair — the
location map returns (line 2, column 0).  The column is 0, not 1-based,
so the claim "the location map returns a 1-based (line, column) pair"
fails at this offset: the C++ loop consumes the whole CRLF pair even
though the target offset lies inside it, leaving `lastLineStart` one
byte past the offset. -/
theorem C8_counterexample_crlf_column_zero :
    getLocationLineAndColumn [13, 10] 1 = (2, 0) ∧
    ¬(1 ≤ (getLocationLineAndColumn [13, 10] 1).2) := by
  constructor <;> decide

/-- C8 (amended): for every byte offset within the document that does
not fall strictly inside a CRLF pair, the location map returns exactly
(number of CR/LF/CRLF line terminators before the offset + 1, number of
bytes from the last line start + 1): both components are 1-based, CR,
LF, and CRLF each count as one terminator, and both components are
bounded by offset + 1, so the location lies within the document. -/
theorem C8_location_map_amended (doc : List Nat) (offset : Nat)
    (hle : offset ≤ doc.length)
    (hstr : ¬(0 < offset ∧ doc.getD (offset - 1) 0 = 13 ∧ doc.getD offset 0 = 10)) :
    getLocationLineAndColumn doc offset
        = (countEols (doc.take offset) + 1, colLen (doc.take offset) + 1)
      ∧ 1 ≤ (getLocationLineAndColumn doc offset).1
      ∧ 1 ≤ (getLocationLineAndColumn doc offset).2
      ∧ (getLocationLineAndColumn doc offset).1 ≤ offset + 1
      ∧ (getLocationLineAndColumn doc offset).2 ≤ offset + 1 := by
  have h := getLocationLineAndColumn_spec doc offset hle hstr
  have hlenT : (doc.take offset).length = offset := by
    rw [List.length_take]
    exact Nat.min_eq_left hle
  have h1 := countEols_le (doc.take offset)
  have h2 := colLen_le (doc.take offset)
  refine ⟨h, ?_, ?_, ?_, ?_⟩ <;> rw [h] <;> dsimp only <;> omega

/-- Witness for C8 at the document "a\r\nb", offset 4: one CRLF
terminator before the offset and one byte since the line start, so the
location is (line 2, column 2). -/
theorem C8_location_map_amended_witness :
    getLocationLineAndColumn [97, 13, 10, 98] 4 = (2, 2) := by
  have h := C8_location_map_amended [97, 13, 10, 98] 4 (by decide) (by decide)
  rw [h.1]
  decide
/-! ## C3: unicode escapes and surrogate pairs -/

theorem hexLoop_step (ctx : Ctx) (tok : Token) (i cur acc : Nat) (st : PState) (v : Nat)
    (h : hexDigitVal (ctx.doc.getD cur 0) = some v) :
    hexLoop ctx tok (i + 1) cur acc st = hexLoop ctx tok i (cur + 1) (acc * 16 + v) st := by
  rw [hexLoop]
  rw [h]

theorem hexLoop4_eq (ctx : Ctx) (tok : Token) (cur : Nat) (st : PState)
    (v1 v2 v3 v4 : Nat)
    (h1 : hexDigitVal (ctx.doc.getD cur 0) = some v1)
    (h2 : hexDigitVal (ctx.doc.getD (cur + 1) 0) = some v2)
    (h3 : hexDigitVal (ctx.doc.getD (cur + 2) 0) = some v3)
    (h4 : hexDigitVal (ctx.doc.getD (cur + 3) 0) = some v4) :
    hexLoop ctx tok 4 cur 0 st =
      (true, ((v1 * 16 + v2) * 16 + v3) * 16 + v4, cur + 4, st) := by
  show hexLoop ctx tok (3 + 1) cur 0 st = _
  rw [hexLoop_step ctx tok 3 cur 0 st v1 h1]
  rw [show 0 * 16 + v1 = v1 from by omega]
  show hexLoop ctx tok (2 + 1) _ _ _ = _
  rw [hexLoop_step ctx tok 2 (cur + 1) _ st v2 h2]
  show hexLoop ctx tok (1 + 1) _ _ _ = _
  rw [show cur + 1 + 1 = cur + 2 from by omega]
  rw [hexLoop_step ctx tok 1 (cur + 2) _ st v3 h3]
  show hexLoop ctx tok (0 + 1) _ _ _ = _
  rw [show cur + 2 + 1 = cur + 3 from by omega]
  rw [hexLoop_step ctx tok 0 (cur + 3) _ st v4 h4]
  rw [show cur + 3 + 1 = cur + 4 from by omega]
  rw [hexLoop]

theorem decodeUES_ok (ctx : Ctx) (tok : Token) (cur endP : Nat) (st : PState)
    (v1 v2 v3 v4 : Nat)
    (h1 : hexDigitVal (ctx.doc.getD cur 0) = some v1)
    (h2 : hexDigitVal (ctx.doc.getD (cur + 1) 0) = some v2)
    (h3 : hexDigitVal (ctx.doc.getD (cur + 2) 0) = some v3)
    (h4 : hexDigitVal (ctx.doc.getD (cur + 3) 0) = some v4)
    (hend : 4 ≤ endP - cur) :
    decodeUES ctx tok cur endP st =
      (true, ((v1 * 16 + v2) * 16 + v3) * 16 + v4, cur + 4, st) := by
  rw [decodeUES, if_neg (by omega)]
  exact hexLoop4_eq ctx tok cur st v1 v2 v3 v4 h1 h2 h3 h4

/-- C3 counterexample: the lone low surrogate `"\uDC00"` parses
successfully with an empty error journal (refuting "a low surrogate
without a preceding high one is an error"): the code point 0xDC00 is
outside the high-surrogate range, so it is accepted as-is and emitted as
the three UTF-8-style bytes ED B0 80.  Moreover `"\uD83D\u0041"` — a
high surrogate whose following escape decodes to 0x41, far below the
required low-surrogate range [0xDC00, 0xDFFF] — also parses
successfully: the second escape's value is never range-checked, and the
pair combines to U+1F441. -/
theorem C3_counterexample_lone_low_surrogate :
    resPlain (parseF 30 defaultFeatures true (bytes "\"\\uDC00\"")) =
      some (.strV [237, 176, 128]) ∧
    resErrors (parseF 30 defaultFeatures true (bytes "\"\\uDC00\"")) = some [] ∧
    resOk (parseF 30 defaultFeatures true (bytes "\"\\uDC00\"")) = some true ∧
    resPlain (parseF 30 defaultFeatures true (bytes "\"\\uD83D\\u0041\"")) =
      some (.strV (codePointToUTF8 128065)) ∧
    resErrors (parseF 30 defaultFeatures true (bytes "\"\\uD83D\\u0041\"")) = some [] := by
  refine ⟨rfl, rfl, rfl, rfl, rfl⟩

/-- C3 (amended): in `decodeUnicodeCodePoint`, a `\uXXXX` escape of four
hex digits decoding to a value OUTSIDE the high-surrogate range
[0xD800, 0xDBFF] — including a lone low surrogate — is accepted as-is
(first conjunct); a value in the high-surrogate range requires the next
bytes to be `\u` followed by four hex digits, whose value `low` is NOT
range-checked against [0xDC00, 0xDFFF], and the escape yields
0x10000 + (high % 0x400) * 0x400 + low % 0x400 (second conjunct). -/
theorem C3_surrogate_decoding_amended
    (ctx : Ctx) (tok : Token) (cur endP : Nat) (st : PState)
    (v1 v2 v3 v4 u : Nat)
    (h1 : hexDigitVal (ctx.doc.getD cur 0) = some v1)
    (h2 : hexDigitVal (ctx.doc.getD (cur + 1) 0) = some v2)
    (h3 : hexDigitVal (ctx.doc.getD (cur + 2) 0) = some v3)
    (h4 : hexDigitVal (ctx.doc.getD (cur + 3) 0) = some v4)
    (hu : u = ((v1 * 16 + v2) * 16 + v3) * 16 + v4)
    (hend : 4 ≤ endP - cur) :
    (¬ (0xD800 ≤ u ∧ u ≤ 0xDBFF) →
      decodeUCP ctx tok cur endP st = (true, u, cur + 4, st))
    ∧
    (∀ w1 w2 w3 w4 low : Nat,
      0xD800 ≤ u → u ≤ 0xDBFF →
      10 ≤ endP - cur →
      ctx.doc.getD (cur + 4) 0 = 92 →
      ctx.doc.getD (cur + 5) 0 = 117 →
      hexDigitVal (ctx.doc.getD (cur + 6) 0) = some w1 →
      hexDigitVal (ctx.doc.getD (cur + 7) 0) = some w2 →
      hexDigitVal (ctx.doc.getD (cur + 8) 0) = some w3 →
      hexDigitVal (ctx.doc.getD (cur + 9) 0) = some w4 →
      low = ((w1 * 16 + w2) * 16 + w3) * 16 + w4 →
      decodeUCP ctx tok cur endP st =
        (true, 0x10000 + u % 0x400 * 0x400 + low % 0x400, cur + 10, st)) := by
  subst hu
  constructor
  · intro hns
    simp only [decodeUCP, decodeUES_ok ctx tok cur endP st v1 v2 v3 v4 h1 h2 h3 h4 hend]
    rw [if_neg hns]
  · intro w1 w2 w3 w4 low hlo hhi hend10 hbs h117 g1 g2 g3 g4 hlow
    subst hlow
    simp only [decodeUCP, decodeUES_ok ctx tok cur endP st v1 v2 v3 v4 h1 h2 h3 h4 hend]
    rw [if_pos ⟨hlo, hhi⟩]
    rw [if_neg (show ¬ (endP - (cur + 4) < 6) from by omega)]
    rw [show cur + 4 + 1 = cur + 5 from by omega]
    rw [show cur + 5 + 1 = cur + 6 from by omega]
    rw [if_pos hbs, if_pos h117]
    simp only [decodeUES_ok ctx tok (cur + 6) endP st w1 w2 w3 w4 g1 g2 g3 g4 (by omega)]

/-- Witness for C3: inside the document `"😀"` the escape
starting at byte 3 decodes, via the surrogate-pair path, to the code
point U+1F600 with the cursor advanced past both escapes; and the full
parse of that document yields the string whose bytes are F0 9F 98 80. -/
theorem C3_surrogate_decoding_amended_witness :
    decodeUCP (mkCtx defaultFeatures true (bytes "\"\\uD83D\\uDE00\"")) 
        { type := TokType.stringTok, offsetStart := 0, offsetEnd := 14 } 3 13 initState
      = (true, 0x1F600, 13, initState) ∧
    resPlain (parseF 30 defaultFeatures true (bytes "\"\\uD83D\\uDE00\"")) =
      some (.strV [0xF0, 0x9F, 0x98, 0x80]) := by
  constructor
  · have h := (C3_surrogate_decoding_amended
      (mkCtx defaultFeatures true (bytes "\"\\uD83D\\uDE00\"")) 
      { type := TokType.stringTok, offsetStart := 0, offsetEnd := 14 } 3 13 initState
      13 8 3 13 0xD83D rfl rfl rfl rfl (by norm_num) (by norm_num)).2
      13 14 0 0 0xDE00 (by norm_num) (by norm_num) (by norm_num) rfl rfl rfl rfl rfl rfl
      (by norm_num)
    rw [h]
  · rfl
/-! ## C9: single-quoted strings and the interior double quote -/

theorem decodeStringCore_stops (ctx : Ctx) (tok : Token) :
    ∀ fuel cur stop endP acc st,
      cur ≤ stop → stop < endP → stop ≤ ctx.doc.length → stop - cur < fuel →
      (∀ i, cur ≤ i → i < stop → ctx.doc.getD i 0 ≠ 34 ∧ ctx.doc.getD i 0 ≠ 92) →
      ctx.doc.getD stop 0 = 34 →
      decodeStringCoreF ctx tok fuel cur endP acc st =
        (true, acc ++ (ctx.doc.take stop).drop cur, st) := by
  intro fuel
  induction fuel with
  | zero =>
    intro cur stop endP acc st h1 h2 h3 h4 h5 h6
    omega
  | succ m ih =>
    intro cur stop endP acc st h1 h2 h3 h4 h5 h6
    rw [decodeStringCoreF]
    rw [if_neg (show ¬ cur = endP from by omega)]
    by_cases hcs : cur = stop
    · subst hcs
      dsimp only
      rw [if_pos h6]
      rw [take_drop_nil ctx.doc cur cur (le_refl cur)]
      rw [List.append_nil]
    · have hlt : cur < stop := by omega
      have hc34 := (h5 cur (le_refl cur) hlt).1
      have hc92 := (h5 cur (le_refl cur) hlt).2
      dsimp only
      rw [if_neg hc34, if_neg hc92]
      rw [ih (cur + 1) stop endP (acc ++ [ctx.doc.getD cur 0]) st (by omega) h2 h3 (by omega)
          (fun i hi1 hi2 => h5 i (by omega) hi2) h6]
      rw [take_drop_cons ctx.doc stop cur hlt h3]
      simp

/-- C9: when decoding a string token, the interior loop stops —
successfully, reporting no error — at the first interior byte that is an
unescaped double quote, returning exactly the bytes before it and
ignoring everything from that double quote to the token's end.  For a
single-quoted token (allow_single_quotes) the token's interior can
contain an unescaped `"`, so the decoded value is silently truncated
there: `decodeString` scans `current != end` with `end` one before the
token's end but breaks on `c == '"'` first. -/
theorem C9_single_quote_stops_at_double_quote
    (ctx : Ctx) (tok : Token) (fuel : Nat) (st : PState) (q : Nat)
    (hs : tok.offsetStart + 1 ≤ q)
    (hq : q < tok.offsetEnd - 1)
    (hqd : q ≤ ctx.doc.length)
    (hfuel : q - (tok.offsetStart + 1) < fuel)
    (hpre : ∀ i, tok.offsetStart + 1 ≤ i → i < q →
      ctx.doc.getD i 0 ≠ 34 ∧ ctx.doc.getD i 0 ≠ 92)
    (hat : ctx.doc.getD q 0 = 34) :
    decodeStringBytes fuel ctx tok st =
      (true, (ctx.doc.take q).drop (tok.offsetStart + 1), st) := by
  rw [decodeStringBytes]
  rw [decodeStringCore_stops ctx tok fuel (tok.offsetStart + 1) q (tok.offsetEnd - 1) [] st
      hs hq hqd hfuel hpre hat]
  rw [List.nil_append]

/-- Witness for C9 on the document `'a"b'` (with single quotes
enabled): the string token spans the whole document, yet decoding stops
at the interior `"` after one byte, yielding "a" with no error, and the
full parse succeeds with root "a" and an empty error journal. -/
theorem C9_single_quote_stops_at_double_quote_witness :
    decodeStringBytes 10
        (mkCtx { defaultFeatures with allowSingleQuotes := true } true (bytes "\x27a\"b\x27"))
        { type := TokType.stringTok, offsetStart := 0, offsetEnd := 5 } initState
      = (true, [97], initState) ∧
    resPlain (parseF 30 { defaultFeatures with allowSingleQuotes := true } true
        (bytes "\x27a\"b\x27")) = some (.strV [97]) ∧
    resErrors (parseF 30 { defaultFeatures with allowSingleQuotes := true } true
        (bytes "\x27a\"b\x27")) = some [] ∧
    resOk (parseF 30 { defaultFeatures with allowSingleQuotes := true } true
        (bytes "\x27a\"b\x27")) = some true := by
  refine ⟨?_, rfl, rfl, rfl⟩
  have h := C9_single_quote_stops_at_double_quote
    (mkCtx { defaultFeatures with allowSingleQuotes := true } true (bytes "\x27a\"b\x27"))
    { type := TokType.stringTok, offsetStart := 0, offsetEnd := 5 } 10 initState 2
    (by decide) (by decide) (by decide) (by decide)
    (by
      intro i h1 h2
      have he : i = 1 := by omega
      subst he
      decide)
    (by decide)
  rw [h]
  rfl
/-! ## C5: ObjectEnd at the top of the member loop -/

theorem exc_bind_err {α β : Type} (e : Halt) (f : α → Except Halt β) :
    ((Except.error e : Except Halt α) >>= f) = .error e := rfl

/-- C5 counterexample: the document consisting of an opening brace, the
empty-string key with value 1, a trailing comma, and a closing brace
parses SUCCESSFULLY as the object with the one member ("", 1), with an
empty error journal — the ObjectEnd token is read at the top of the
member loop right after a member and its trailing comma, yet it is
accepted, because the guard tests `name.empty()` (the previous key is
the empty string), not whether a member has been added.  With the
nonempty key "a" the same shape fails, confirming the guard is about
the key's emptiness. -/
theorem C5_counterexample_empty_key_trailing_comma :
    resOk (parseF 30 defaultFeatures true (bytes "\x7b\"\":1,\x7d")) = some true ∧
    resPlain (parseF 30 defaultFeatures true (bytes "\x7b\"\":1,\x7d")) =
      some (.objV [([], .intV 1)]) ∧
    resErrors (parseF 30 defaultFeatures true (bytes "\x7b\"\":1,\x7d")) = some [] ∧
    resOk (parseF 30 defaultFeatures true (bytes "\x7b\"a\":1,\x7d")) = some false := by
  refine ⟨rfl, rfl, rfl, rfl⟩
/-- C5 (amended): an ObjectEnd token read at the top of the member loop
(after skipping comments) completes the object and returns success if
and only if the previously decoded member name is the empty string —
which holds on the first iteration ("{}" parses as the empty object) but
ALSO after a member whose key is the empty string, so an ObjectEnd right
after a member and its trailing comma IS accepted when that member's key
was "" (and rejected, returning failure, for any other key). -/
theorem C5_object_end_completion_amended
    (fuel : Nat) (ctx : Ctx) (nodes : Nat) (objStart : Int)
    (members : List (List Nat × JVal)) (name : List Nat) (st : PState)
    (tokenName : Token) (cur1 : Cursor)
    (hskip : skipWhileCommentF (fuel + 1) ctx (readToken ctx st.cur).1 (readToken ctx st.cur).2
      = .ok (tokenName, cur1))
    (htype : tokenName.type = TokType.objectEnd) :
    (name = [] →
      readObjectLoopF (fuel + 1) ctx nodes objStart members name st
        = .ok (true, JVal.mk (.objV members) objStart 0, { st with cur := cur1 }))
    ∧
    (name ≠ [] → ∀ r, readObjectLoopF (fuel + 1) ctx nodes objStart members name st = .ok r →
      r.1 = false) := by
  constructor
  · intro hname
    subst hname
    rw [readObjectLoopF]
    show (pfns (fuel + 1)).rol ctx nodes objStart members [] st = _
    rw [pfns]
    simp only [hskip, exc_bind_ok]
    rw [if_pos ⟨htype, trivial⟩]
  · intro hname r hr
    rw [readObjectLoopF] at hr
    rw [pfns] at hr
    simp only [hskip, exc_bind_ok] at hr
    rw [if_neg (fun hc => hname hc.2)] at hr
    rw [if_neg (by rw [htype]; decide)] at hr
    rw [if_neg (fun hc => by rw [htype] at hc; exact absurd hc.1 (by decide))] at hr
    rcases hres : addErrorAndRecoverF (fuel + 1) ctx
        ("Missing \x27\x7d\x27 or object member name") tokenName TokType.objectEnd
        { st with cur := cur1 } with e | p
    · rw [hres, exc_bind_err] at hr
      exact absurd hr (by simp)
    · obtain ⟨b, st4⟩ := p
      rw [hres, exc_bind_ok] at hr
      simp only [Except.ok.injEq] at hr
      rw [← hr]

/-- Witness for C5 on the document consisting of two braces: entering
the member loop after the opening brace with no member yet (empty
`name`), the ObjectEnd token completes the empty object successfully. -/
theorem C5_object_end_completion_amended_witness :
    readObjectLoopF 5 (mkCtx defaultFeatures true (bytes "\x7b\x7d")) 1 0 [] []
        { cur := { pos := 1, commentsBefore := [], lastValueEnd := none }, errors := [] }
      = .ok (true, JVal.mk (.objV []) 0 0,
          { cur := { pos := 2, commentsBefore := [], lastValueEnd := none }, errors := [] }) :=
  (C5_object_end_completion_amended 4 (mkCtx defaultFeatures true (bytes "\x7b\x7d")) 1 0 [] []
      { cur := { pos := 1, commentsBefore := [], lastValueEnd := none }, errors := [] }
      ⟨TokType.objectEnd, 1, 2⟩ ⟨2, [], none⟩ rfl rfl).1 rfl
/-! ## C4: the extra-token check after the top-level value -/

/-- C4 counterexample: for the document `[1] @` — a valid array
followed by `@`, which tokenizes as an Error token — enabling BOTH
fail_if_extra and strict_root yields failure with the error "Extra
non-whitespace after JSON value.", although the claim exempts Error
tokens unconditionally; the exemption only applies when strict_root is
disabled: with fail_if_extra alone the same document parses
successfully with no error at all. -/
theorem C4_counterexample_error_token_strict :
    resOk (parseF 30 { defaultFeatures with failIfExtra := true, strictRoot := true } true
      (bytes "[1] @")) = some false ∧
    resMsgs (parseF 30 { defaultFeatures with failIfExtra := true, strictRoot := true } true
      (bytes "[1] @")) = some ["Extra non-whitespace after JSON value."] ∧
    resOk (parseF 30 { defaultFeatures with failIfExtra := true } true
      (bytes "[1] @")) = some true ∧
    resMsgs (parseF 30 { defaultFeatures with failIfExtra := true } true
      (bytes "[1] @")) = some [] := by
  refine ⟨rfl, rfl, rfl, rfl⟩

/-- C4 (amended): after the top-level value, parse reads one more token
(skipping comments).  (1) If fail_if_extra is enabled, the token is not
EndOfStream, and either strict_root is enabled or the token is not an
Error token, parse appends "Extra non-whitespace after JSON value." and
returns failure — so with strict_root the Error-token exemption does NOT
apply.  (2) With fail_if_extra enabled but strict_root disabled, an
Error token leaves the result unchanged.  (3) With fail_if_extra
disabled (and strict_root disabled), trailing input is ignored and the
result is unchanged. -/
theorem C4_extra_token_amended
    (fuel : Nat) (ctx : Ctx) (successful : Bool) (root : JVal) (st : PState)
    (token : Token) (cur : Cursor)
    (hskip : skipCommentTokensF fuel ctx st.cur = .ok (token, cur)) :
    (ctx.feats.failIfExtra = true → token.type ≠ TokType.endOfStream →
      (ctx.feats.strictRoot = true ∨ token.type ≠ TokType.errorTok) →
      parsePostF fuel ctx successful root st =
        .ok (false, root,
          addError ctx ("Extra non-whitespace after JSON value.") token none
            { st with cur := cur }))
    ∧
    (ctx.feats.failIfExtra = true → ctx.feats.strictRoot = false →
      token.type = TokType.errorTok →
      parsePostF fuel ctx successful root st = .ok (successful, root, { st with cur := cur }))
    ∧
    (ctx.feats.failIfExtra = false → ctx.feats.strictRoot = false →
      parsePostF fuel ctx successful root st = .ok (successful, root, { st with cur := cur })) := by
  refine ⟨?_, ?_, ?_⟩
  · intro hfie hneos hor
    rw [parsePostF]
    simp only [hskip, exc_bind_ok]
    rw [if_pos ⟨hfie, hor, hneos⟩]
  · intro hfie hsr htype
    rw [parsePostF]
    simp only [hskip, exc_bind_ok]
    have h1 : ¬ (ctx.feats.failIfExtra = true ∧
        (ctx.feats.strictRoot = true ∨ token.type ≠ TokType.errorTok) ∧
        token.type ≠ TokType.endOfStream) := by
      intro hc
      rcases hc.2.1 with h | h
      · rw [hsr] at h
        exact Bool.false_ne_true h
      · exact h htype
    have h2 : ¬ (ctx.feats.strictRoot = true ∧
        ¬ (root.isArray = true ∨ root.isObject = true)) := by
      intro hc
      rw [hsr] at hc
      exact Bool.false_ne_true hc.1
    rw [if_neg h1, if_neg h2]
  · intro hfie hsr
    rw [parsePostF]
    simp only [hskip, exc_bind_ok]
    have h1 : ¬ (ctx.feats.failIfExtra = true ∧
        (ctx.feats.strictRoot = true ∨ token.type ≠ TokType.errorTok) ∧
        token.type ≠ TokType.endOfStream) := by
      intro hc
      rw [hfie] at hc
      exact Bool.false_ne_true hc.1
    have h2 : ¬ (ctx.feats.strictRoot = true ∧
        ¬ (root.isArray = true ∨ root.isObject = true)) := by
      intro hc
      rw [hsr] at hc
      exact Bool.false_ne_true hc.1
    rw [if_neg h1, if_neg h2]

/-- Witness for C4 on the document `[1] @` with fail_if_extra and
strict_root enabled: the token after the value is the Error token `@`,
and the post-parse step returns failure with the extra-input error. -/
theorem C4_extra_token_amended_witness :
    parsePostF 10
        (mkCtx { defaultFeatures with failIfExtra := true, strictRoot := true } true
          (bytes "[1] @"))
        true (JVal.mk .nullV 0 0) { cur := ⟨3, [], none⟩, errors := [] }
      = .ok (false, JVal.mk .nullV 0 0,
          addError
            (mkCtx { defaultFeatures with failIfExtra := true, strictRoot := true } true
              (bytes "[1] @"))
            ("Extra non-whitespace after JSON value.") ⟨TokType.errorTok, 4, 5⟩ none
            { cur := ⟨5, [], none⟩, errors := [] }) :=
  (C4_extra_token_amended 10
    (mkCtx { defaultFeatures with failIfExtra := true, strictRoot := true } true
      (bytes "[1] @"))
    true (JVal.mk .nullV 0 0) { cur := ⟨3, [], none⟩, errors := [] }
    ⟨TokType.errorTok, 4, 5⟩ ⟨5, [], none⟩ rfl).1 rfl (by decide) (Or.inl rfl)
/-! ## C10: whitespace-only documents -/

theorem skipSpacesL_all (l : List Nat) :
    ∀ pos, (∀ c ∈ l, isSpaceByte c = true) → skipSpacesL l pos = pos + l.length := by
  induction l with
  | nil =>
    intro pos h
    simp [skipSpacesL]
  | cons c r ih =>
    intro pos h
    rw [skipSpacesL, if_pos (h c (by simp))]
    rw [ih (pos + 1) (fun d hd => h d (by simp [hd]))]
    simp only [List.length_cons]
    omega

theorem skipSpaces_ws (doc : List Nat) (pos : Nat)
    (h : ∀ c ∈ doc, isSpaceByte c = true) (hpos : pos ≤ doc.length) :
    skipSpaces doc pos = doc.length := by
  rw [skipSpaces, skipSpacesL_all (doc.drop pos) pos
      (fun c hc => h c (List.mem_of_mem_drop hc))]
  rw [List.length_drop]
  omega

theorem readToken_ws (ctx : Ctx) (cur : Cursor)
    (h : ∀ c ∈ ctx.doc, isSpaceByte c = true) (hpos : cur.pos ≤ ctx.doc.length) :
    readToken ctx cur =
      ({ type := TokType.endOfStream, offsetStart := ctx.doc.length,
         offsetEnd := ctx.doc.length }, { cur with pos := ctx.doc.length }) := by
  have hgc : getNextChar ctx.doc ctx.doc.length = (0, ctx.doc.length) := by
    rw [getNextChar, if_neg (lt_irrefl _)]
  rw [readToken]
  rw [skipSpaces_ws ctx.doc cur.pos h hpos, hgc]
  rfl

theorem skipCommentTokensF_ws (fuel : Nat) (ctx : Ctx) (cur : Cursor)
    (h : ∀ c ∈ ctx.doc, isSpaceByte c = true) (hpos : cur.pos ≤ ctx.doc.length) :
    skipCommentTokensF (fuel + 1) ctx cur =
      .ok ({ type := TokType.endOfStream, offsetStart := ctx.doc.length,
             offsetEnd := ctx.doc.length }, { cur with pos := ctx.doc.length }) := by
  rw [skipCommentTokensF]
  rw [readToken_ws ctx cur h hpos]
  simp

/-- C10: a document that is empty or consists only of whitespace bytes
(space, tab, CR, LF) parses, under default features, to failure with
exactly one error, "Syntax error: value, object or array expected.",
located at the end of the document (the EndOfStream token's offset is
the document length). -/
theorem C10_whitespace_only_syntax_error
    (fuel : Nat) (doc : List Nat) (collect : Bool)
    (hws : ∀ c ∈ doc, isSpaceByte c = true) :
    resOk (parseF (fuel + 1) defaultFeatures collect doc) = some false ∧
    resMsgs (parseF (fuel + 1) defaultFeatures collect doc) =
      some ["Syntax error: value, object or array expected."] ∧
    resErrors (parseF (fuel + 1) defaultFeatures collect doc) =
      some [{ line := (getLocationLineAndColumn doc doc.length).1,
              column := (getLocationLineAndColumn doc doc.length).2,
              message := "Syntax error: value, object or array expected.",
              extraLine := 0, extraColumn := 0 }] := by
  have hguard : ¬ (((1 : Nat) : Int) > (mkCtx defaultFeatures collect doc).feats.stackLimit) := by
    show ¬ ((1 : Int) > (1000 : Int))
    decide
  have hs1 := skipCommentTokensF_ws fuel (mkCtx defaultFeatures collect doc) initState.cur
    hws (Nat.zero_le _)
  have hrv : readValueF (fuel + 1) (mkCtx defaultFeatures collect doc) 1 initState =
      .ok (syntaxErrorBranch (mkCtx defaultFeatures collect doc)
        { type := TokType.endOfStream, offsetStart := doc.length, offsetEnd := doc.length }
        (commentsBeforeStep (mkCtx defaultFeatures collect doc)
          { initState with cur := { initState.cur with pos := doc.length } })) := by
    rw [readValueF]
    show (pfns (fuel + 1)).rv (mkCtx defaultFeatures collect doc) 1 initState = _
    rw [pfns]
    simp only [if_neg hguard, hs1, exc_bind_ok]
    rfl
  have hs2 : ∀ cu : Cursor, cu.pos = doc.length →
      skipCommentTokensF (fuel + 1) (mkCtx defaultFeatures collect doc) cu =
        .ok ({ type := TokType.endOfStream, offsetStart := doc.length,
               offsetEnd := doc.length }, { cu with pos := doc.length }) := by
    intro cu hp
    exact skipCommentTokensF_ws fuel (mkCtx defaultFeatures collect doc) cu hws (le_of_eq hp)
  have hpar : parseF (fuel + 1) defaultFeatures collect doc =
      .ok (false,
        JVal.mk .nullV (doc.length : Int) (doc.length : Int),
        { addError (mkCtx defaultFeatures collect doc)
            ("Syntax error: value, object or array expected.")
            { type := TokType.endOfStream, offsetStart := doc.length, offsetEnd := doc.length }
            none
            (commentsBeforeStep (mkCtx defaultFeatures collect doc)
              { initState with cur := { initState.cur with pos := doc.length } }) with
          cur := { (addError (mkCtx defaultFeatures collect doc)
            ("Syntax error: value, object or array expected.")
            { type := TokType.endOfStream, offsetStart := doc.length, offsetEnd := doc.length }
            none
            (commentsBeforeStep (mkCtx defaultFeatures collect doc)
              { initState with cur := { initState.cur with pos := doc.length } })).cur
            with pos := doc.length } }) := by
    have h1 : ¬ ((mkCtx defaultFeatures collect doc).feats.failIfExtra = true ∧
        ((mkCtx defaultFeatures collect doc).feats.strictRoot = true ∨
          ({ type := TokType.endOfStream, offsetStart := doc.length,
             offsetEnd := doc.length } : Token).type ≠ TokType.errorTok) ∧
        ({ type := TokType.endOfStream, offsetStart := doc.length,
           offsetEnd := doc.length } : Token).type ≠ TokType.endOfStream) := by
      intro hc
      exact hc.2.2 rfl
    have h2 : ¬ ((mkCtx defaultFeatures collect doc).feats.strictRoot = true ∧
        ¬ ((JVal.mk .nullV (doc.length : Int) (doc.length : Int)).isArray = true ∨
           (JVal.mk .nullV (doc.length : Int) (doc.length : Int)).isObject = true)) := by
      intro hc
      exact Bool.false_ne_true hc.1
    rw [parseF]
    rw [hrv, exc_bind_ok]
    simp only [syntaxErrorBranch]
    rw [parsePostF]
    simp only [hs2 (addError (mkCtx defaultFeatures collect doc)
        ("Syntax error: value, object or array expected.")
        { type := TokType.endOfStream, offsetStart := doc.length, offsetEnd := doc.length }
        none
        (commentsBeforeStep (mkCtx defaultFeatures collect doc)
          { initState with cur := { initState.cur with pos := doc.length } })).cur
      (by
        show (commentsBeforeStep (mkCtx defaultFeatures collect doc)
          { initState with cur := { initState.cur with pos := doc.length } }).cur.pos = doc.length
        rw [commentsBeforeStep_pos]),
      exc_bind_ok, if_neg h1, if_neg h2]
  refine ⟨?_, ?_, ?_⟩
  · rw [hpar]
    rfl
  · rw [hpar]
    simp only [resMsgs, addError, commentsBeforeStep_errors]
    rfl
  · rw [hpar]
    simp only [resErrors, addError, commentsBeforeStep_errors]
    rfl

/-- Witness for C10 on the four-byte whitespace document
space-tab-CR-LF: the parse fails with exactly the expected message. -/
theorem C10_whitespace_only_syntax_error_witness :
    resOk (parseF 10 defaultFeatures true (bytes " \t\r\n")) = some false ∧
    resMsgs (parseF 10 defaultFeatures true (bytes " \t\r\n")) =
      some ["Syntax error: value, object or array expected."] := by
  have h := C10_whitespace_only_syntax_error 9 (bytes " \t\r\n") true (by decide)
  exact ⟨h.1, h.2.1⟩
/-! ## C1: the depth guard and the nested-array family -/

theorem nestDoc_length (k : Nat) : (nestDoc k).length = 2 * k + 1 := by
  simp only [nestDoc, List.length_append, List.length_replicate, List.length_cons]
  omega

theorem nestDoc_getD (k p : Nat) :
    (nestDoc k).getD p 0 =
      if p < k then 91 else if p = k then 49 else if p ≤ 2 * k then 93 else 0 := by
  rw [nestDoc, List.getD_eq_getElem?_getD]
  by_cases h1 : p < k
  · rw [List.getElem?_append_left (by simp only [List.length_replicate]; omega)]
    rw [List.getElem?_replicate, if_pos h1]
    simp [h1]
  · rw [List.getElem?_append_right (by simp only [List.length_replicate]; omega)]
    simp only [List.length_replicate]
    by_cases h2 : p = k
    · subst h2
      simp
    · have h3 : p - k = (p - k - 1) + 1 := by omega
      rw [h3]
      simp only [List.getElem?_cons_succ]
      rw [List.getElem?_replicate]
      by_cases h4 : p ≤ 2 * k
      · rw [if_pos (by omega)]
        simp [h1, h2, h4]
      · rw [if_neg (by omega)]
        simp [h1, h2, h4]

theorem skipSpaces_nospace (doc : List Nat) (p : Nat) (hlt : p < doc.length)
    (hb : isSpaceByte (doc.getD p 0) = false) :
    skipSpaces doc p = p := by
  rw [skipSpaces]
  rw [List.drop_eq_getElem_cons hlt]
  rw [skipSpacesL]
  rw [show doc[p] = doc.getD p 0 from (List.getD_eq_getElem doc 0 hlt).symm]
  rw [if_neg (by rw [hb]; exact Bool.false_ne_true)]

theorem digitRunEnd_stop (doc : List Nat) (p : Nat)
    (hb : p < doc.length → isDigitByte (doc.getD p 0) = false) :
    digitRunEnd doc p = p := by
  rw [digitRunEnd]
  by_cases hlt : p < doc.length
  · rw [List.drop_eq_getElem_cons hlt]
    rw [digitRunL]
    rw [show doc[p] = doc.getD p 0 from (List.getD_eq_getElem doc 0 hlt).symm]
    rw [if_neg (by rw [hb hlt]; exact Bool.false_ne_true)]
  · rw [List.drop_eq_nil_of_le (by omega)]
    rw [digitRunL]

theorem readToken_arrayBegin (ctx : Ctx) (cur : Cursor)
    (hlt : cur.pos < ctx.doc.length) (hb : ctx.doc.getD cur.pos 0 = 91) :
    readToken ctx cur =
      ({ type := TokType.arrayBegin, offsetStart := cur.pos, offsetEnd := cur.pos + 1 },
        { cur with pos := cur.pos + 1 }) := by
  have hs : skipSpaces ctx.doc cur.pos = cur.pos :=
    skipSpaces_nospace _ _ hlt (by rw [hb]; rfl)
  rw [readToken, hs, getNextChar, if_pos hlt, hb]
  rfl

theorem readToken_arrayEnd (ctx : Ctx) (cur : Cursor)
    (hlt : cur.pos < ctx.doc.length) (hb : ctx.doc.getD cur.pos 0 = 93) :
    readToken ctx cur =
      ({ type := TokType.arrayEnd, offsetStart := cur.pos, offsetEnd := cur.pos + 1 },
        { cur with pos := cur.pos + 1 }) := by
  have hs : skipSpaces ctx.doc cur.pos = cur.pos :=
    skipSpaces_nospace _ _ hlt (by rw [hb]; rfl)
  rw [readToken, hs, getNextChar, if_pos hlt, hb]
  rfl

theorem readToken_digitOne (ctx : Ctx) (cur : Cursor)
    (hlt : cur.pos < ctx.doc.length) (hb : ctx.doc.getD cur.pos 0 = 49)
    (hnext : cur.pos + 1 < ctx.doc.length →
      (ctx.doc.getD (cur.pos + 1) 0 = 93 ∨ ctx.doc.getD (cur.pos + 1) 0 = 0)) :
    readToken ctx cur =
      ({ type := TokType.number, offsetStart := cur.pos, offsetEnd := cur.pos + 1 },
        { cur with pos := cur.pos + 1 }) := by
  have hs : skipSpaces ctx.doc cur.pos = cur.pos :=
    skipSpaces_nospace _ _ hlt (by rw [hb]; rfl)
  have hdg : digitRunEnd ctx.doc (cur.pos + 1) = cur.pos + 1 :=
    digitRunEnd_stop _ _ (by
      intro h
      rcases hnext h with h93 | h93 <;> rw [h93] <;> rfl)
  have hscan : readNumberScan ctx.doc false (cur.pos + 1) = (true, cur.pos + 1) := by
    rw [readNumberScan]
    rw [if_neg (by intro hc; exact Bool.false_ne_true hc.1)]
    dsimp only
    rw [hdg]
    have hne46 : ¬ (cur.pos + 1 < ctx.doc.length ∧ ctx.doc.getD (cur.pos + 1) 0 = 46) := by
      intro hc
      rcases hnext hc.1 with h | h <;> rw [h] at hc <;> exact absurd hc.2 (by decide)
    rw [if_neg hne46]
    have hne : ¬ (cur.pos + 1 < ctx.doc.length ∧
        (ctx.doc.getD (cur.pos + 1) 0 = 101 ∨ ctx.doc.getD (cur.pos + 1) 0 = 69)) := by
      intro hc
      rcases hnext hc.1 with h | h <;> rw [h] at hc <;>
        rcases hc.2 with h2 | h2 <;> exact absurd h2 (by decide)
    rw [if_neg hne]
  rw [readToken, hs, getNextChar, if_pos hlt, hb]
  dsimp only
  rw [show readTokenDispatch ctx cur 49 (cur.pos + 1) =
      (TokType.number, true, { cur with pos := (readNumberScan ctx.doc false (cur.pos + 1)).2 })
    from rfl]
  rw [hscan]
  rfl

theorem readValueF_guard (fuel : Nat) (ctx : Ctx) (nodes : Nat) (st : PState)
    (h : (nodes : Int) > ctx.feats.stackLimit) :
    readValueF (fuel + 1) ctx nodes st =
      .error (.fatal ("Exceeded stackLimit in readValue().")) := by
  rw [readValueF]
  show (pfns (fuel + 1)).rv ctx nodes st = _
  rw [pfns]
  simp only [if_pos h]

theorem skipCommentTokensF_noncomment (fuel : Nat) (ctx : Ctx) (cur : Cursor)
    (tok : Token) (cur' : Cursor) (hrd : readToken ctx cur = (tok, cur'))
    (h : tok.type ≠ TokType.comment) :
    skipCommentTokensF (fuel + 1) ctx cur = .ok (tok, cur') := by
  rw [skipCommentTokensF, hrd]
  simp [h]

theorem skipWhileCommentF_noncomment (fuel : Nat) (ctx : Ctx) (tok : Token) (cur : Cursor)
    (h : tok.type ≠ TokType.comment) :
    skipWhileCommentF (fuel + 1) ctx tok cur = .ok (tok, cur) := by
  rw [skipWhileCommentF]
  rw [if_neg h]

theorem decodeNumberInstall_one (ctx : Ctx) (tok : Token) (st : PState)
    (hraw : tokenRaw ctx tok = [49]) :
    decodeNumberInstall ctx tok st = (true, installPayload tok (.intV 1), st) := by
  have h1 : decodeNumberVal ctx tok st = (true, some (.intV 1), st) := by
    rw [decodeNumberVal, hraw]
    rfl
  rw [decodeNumberInstall, h1]
theorem nest_rv (k : Nat) (L : Int) :
    ∀ d j (st : PState), j + d = k → st.cur.pos = j →
      (((k : Int) + 1 ≤ L) →
        ∃ v st',
          readValueF (2 * d + 2)
            (mkCtx { defaultFeatures with stackLimit := L } true (nestDoc k)) (j + 1) st
            = .ok (true, v, st') ∧
          st'.cur.pos = 2 * k - j + 1 ∧ st'.errors = st.errors) ∧
      (¬ ((k : Int) + 1 ≤ L) →
        readValueF (2 * d + 2)
          (mkCtx { defaultFeatures with stackLimit := L } true (nestDoc k)) (j + 1) st
          = .error (.fatal ("Exceeded stackLimit in readValue()."))) := by
  intro d
  induction d with
  | zero =>
    intro j st hjk hpos
    have hjk' : j = k := by omega
    subst hjk'
    set C := mkCtx { defaultFeatures with stackLimit := L } true (nestDoc j) with hC
    have hlen : C.doc.length = 2 * j + 1 := nestDoc_length j
    have hbk : C.doc.getD j 0 = 49 := by
      show (nestDoc j).getD j 0 = 49
      rw [nestDoc_getD, if_neg (lt_irrefl j), if_pos rfl]
    have hrt := readToken_digitOne C st.cur
      (by rw [hpos, hlen]; omega)
      (by rw [hpos]; exact hbk)
      (by
        rw [hpos, hlen]
        intro hlt93
        left
        show (nestDoc j).getD (j + 1) 0 = 93
        rw [nestDoc_getD, if_neg (by omega), if_neg (by omega), if_pos (by omega)])
    rw [hpos] at hrt
    constructor
    · intro hok
      have hguard : ¬ (((j + 1 : Nat) : Int) > C.feats.stackLimit) := by
        show ¬ (((j + 1 : Nat) : Int) > L)
        omega
      have hskip := skipCommentTokensF_noncomment (2 * 0 + 1) C st.cur
        { type := TokType.number, offsetStart := j, offsetEnd := j + 1 }
        { st.cur with pos := j + 1 } hrt
        (show TokType.number ≠ TokType.comment from by decide)
      have hraw : tokenRaw C
          { type := TokType.number, offsetStart := j, offsetEnd := j + 1 } = [49] := by
        show ((nestDoc j).drop j).take (j + 1 - j) = [49]
        have hd : (nestDoc j).drop j = 49 :: List.replicate j 93 := by
          rw [nestDoc]
          have := List.drop_left (List.replicate j 91) (49 :: List.replicate j 93)
          rw [List.length_replicate] at this
          exact this
        rw [hd, show j + 1 - j = 1 from by omega]
        rfl
      have hcc : C.collectComments = true := rfl
      refine ⟨installPayload { type := TokType.number, offsetStart := j, offsetEnd := j + 1 }
          (.intV 1),
        { commentsBeforeStep C { st with cur := { st.cur with pos := j + 1 } } with
          cur := { (commentsBeforeStep C { st with cur := { st.cur with pos := j + 1 } }).cur
            with lastValueEnd :=
              some (commentsBeforeStep C
                { st with cur := { st.cur with pos := j + 1 } }).cur.pos } },
        ?_, ?_, ?_⟩
      · rw [readValueF]
        show (pfns (2 * 0 + 1 + 1)).rv C (j + 1) st = _
        rw [pfns]
        simp only [if_neg hguard, hskip, exc_bind_ok]
        rw [decodeNumberInstall_one _ _ _ hraw]
        rw [finishVal, if_pos hcc]
      · simp only [commentsBeforeStep_pos]
        omega
      · simp only [commentsBeforeStep_errors]
    · intro hbad
      have hguard : (((j + 1 : Nat) : Int) > C.feats.stackLimit) := by
        show (((j + 1 : Nat) : Int) > L)
        omega
      exact readValueF_guard (2 * 0 + 1) _ (j + 1) st hguard
  | succ d ih =>
    intro j st hjk hpos
    have hjlt : j < k := by omega
    set C := mkCtx { defaultFeatures with stackLimit := L } true (nestDoc k) with hC
    have hlen : C.doc.length = 2 * k + 1 := nestDoc_length k
    have hb91 : C.doc.getD j 0 = 91 := by
      show (nestDoc k).getD j 0 = 91
      rw [nestDoc_getD, if_pos hjlt]
    have hrt := readToken_arrayBegin C st.cur
      (by rw [hpos, hlen]; omega)
      (by rw [hpos]; exact hb91)
    rw [hpos] at hrt
    have hb1 : C.doc.getD (j + 1) 0 = 91 ∨ C.doc.getD (j + 1) 0 = 49 := by
      by_cases h : j + 1 < k
      · left
        show (nestDoc k).getD (j + 1) 0 = 91
        rw [nestDoc_getD, if_pos h]
      · right
        show (nestDoc k).getD (j + 1) 0 = 49
        rw [nestDoc_getD, if_neg (by omega), if_pos (by omega)]
    have hsp : isSpaceByte (C.doc.getD (j + 1) 0) = false := by
      rcases hb1 with h | h <;> rw [h] <;> rfl
    have hss : skipSpaces C.doc (j + 1) = j + 1 :=
      skipSpaces_nospace _ _ (by rw [hlen]; omega) hsp
    have hne93 : ¬ (j + 1 < C.doc.length ∧ C.doc.getD (j + 1) 0 = 93) := by
      intro hcon
      rcases hb1 with h | h <;> rw [h] at hcon <;> exact absurd hcon.2 (by decide)
    have hpos3 : (commentsBeforeStep C
        { st with cur := { st.cur with pos := j + 1 } }).cur.pos = j + 1 := by
      simp only [commentsBeforeStep_pos]
    have hcc : C.collectComments = true := rfl
    have hfuel : 2 * (d + 1) + 2 = 2 * d + 2 + 1 + 1 := by omega
    rw [hfuel]
    constructor
    · intro hok
      have hguard : ¬ (((j + 1 : Nat) : Int) > C.feats.stackLimit) := by
        show ¬ (((j + 1 : Nat) : Int) > L)
        omega
      have hskip := skipCommentTokensF_noncomment (2 * d + 2 + 1) C st.cur
        { type := TokType.arrayBegin, offsetStart := j, offsetEnd := j + 1 }
        { st.cur with pos := j + 1 } hrt
        (show TokType.arrayBegin ≠ TokType.comment from by decide)
      obtain ⟨v1, st1', heq1, hpos1, herr1⟩ := (ih (j + 1)
        { commentsBeforeStep C { st with cur := { st.cur with pos := j + 1 } } with
          cur := { (commentsBeforeStep C { st with cur := { st.cur with pos := j + 1 } }).cur
            with pos := j + 1 } }
        (by omega) rfl).1 hok
      have hp1 : st1'.cur.pos = 2 * k - j := by omega
      have hrt2 := readToken_arrayEnd C st1'.cur
        (by rw [hp1, hlen]; omega)
        (by
          rw [hp1]
          show (nestDoc k).getD (2 * k - j) 0 = 93
          rw [nestDoc_getD, if_neg (by omega), if_neg (by omega), if_pos (by omega)])
      rw [hp1] at hrt2
      have hskw := skipWhileCommentF_noncomment (2 * d + 2) C
        { type := TokType.arrayEnd, offsetStart := 2 * k - j, offsetEnd := 2 * k - j + 1 }
        { st1'.cur with pos := 2 * k - j + 1 }
        (show TokType.arrayEnd ≠ TokType.comment from by decide)
      rw [readValueF]
      show ∃ v st', (pfns (2 * d + 2 + 1 + 1)).rv C (j + 1) st = .ok (true, v, st') ∧
        st'.cur.pos = 2 * k - j + 1 ∧ st'.errors = st.errors
      rw [pfns]
      simp only [if_neg hguard, hskip, exc_bind_ok]
      rw [hpos3, hss, if_neg hne93]
      rw [pfns]
      simp only []
      rw [← readValueF, heq1, exc_bind_ok]
      simp only [if_neg (show ¬ ((true : Bool) = false) from by decide)]
      rw [hrt2]
      simp [hskw, exc_bind_ok]
      rw [finishVal, if_pos hcc]
      refine ⟨_, _, rfl, ?_, ?_⟩
      · simp
      · simp only [commentsBeforeStep_errors]
        rw [herr1]
        simp only [commentsBeforeStep_errors]
    · intro hbad
      by_cases hg : (((j + 1 : Nat) : Int) > C.feats.stackLimit)
      · exact readValueF_guard (2 * d + 2 + 1) _ (j + 1) st hg
      · have hguard : ¬ (((j + 1 : Nat) : Int) > C.feats.stackLimit) := hg
        have hskip := skipCommentTokensF_noncomment (2 * d + 2 + 1) C st.cur
          { type := TokType.arrayBegin, offsetStart := j, offsetEnd := j + 1 }
          { st.cur with pos := j + 1 } hrt
          (show TokType.arrayBegin ≠ TokType.comment from by decide)
        have hfat := (ih (j + 1)
          { commentsBeforeStep C { st with cur := { st.cur with pos := j + 1 } } with
            cur := { (commentsBeforeStep C { st with cur := { st.cur with pos := j + 1 } }).cur
              with pos := j + 1 } }
          (by omega) rfl).2 hbad
        rw [readValueF]
        show (pfns (2 * d + 2 + 1 + 1)).rv C (j + 1) st =
          .error (.fatal ("Exceeded stackLimit in readValue()."))
        rw [pfns]
        simp only [if_neg hguard, hskip, exc_bind_ok]
        rw [hpos3, hss, if_neg hne93]
        rw [pfns]
        simp only []
        rw [← readValueF, hfat, exc_bind_err, exc_bind_err]

theorem readToken_eos (ctx : Ctx) (cur : Cursor) (hpos : ctx.doc.length ≤ cur.pos) :
    readToken ctx cur =
      ({ type := TokType.endOfStream, offsetStart := cur.pos, offsetEnd := cur.pos }, cur) := by
  have hs : skipSpaces ctx.doc cur.pos = cur.pos := by
    rw [skipSpaces, List.drop_eq_nil_of_le hpos, skipSpacesL]
  have hgc : getNextChar ctx.doc cur.pos = (0, cur.pos) := by
    rw [getNextChar, if_neg (by omega)]
  rw [readToken, hs, hgc]
  rfl

/-- C1: readValue checks the depth guard on entry, before reading any
token — for EVERY context, node count, and state, if the nodes count
exceeds stack_limit the result is the fatal error "Exceeded stackLimit
in readValue()." (first conjunct).  Consequently, for the nested-array
family, the document `[`^k `1` `]`^k of recursion depth k+1 parses
successfully when k+1 ≤ stack_limit, and raises the fatal stack-limit
error when k+1 > stack_limit — in particular at depth exactly
stack_limit + 1 (second conjunct). -/
theorem C1_depth_guard :
    (∀ (fuel : Nat) (ctx : Ctx) (nodes : Nat) (st : PState),
      ((nodes : Int) > ctx.feats.stackLimit) →
      readValueF (fuel + 1) ctx nodes st =
        .error (.fatal ("Exceeded stackLimit in readValue()."))) ∧
    (∀ (k : Nat) (L : Int),
      (((k : Int) + 1 ≤ L) →
        resOk (parseF (2 * k + 2) { defaultFeatures with stackLimit := L } true (nestDoc k))
          = some true) ∧
      (¬ ((k : Int) + 1 ≤ L) →
        resFatal (parseF (2 * k + 2) { defaultFeatures with stackLimit := L } true (nestDoc k))
          = some ("Exceeded stackLimit in readValue()."))) := by
  constructor
  · exact fun fuel ctx nodes st h => readValueF_guard fuel ctx nodes st h
  · intro k L
    set C := mkCtx { defaultFeatures with stackLimit := L } true (nestDoc k) with hC
    constructor
    · intro hok
      obtain ⟨v, st', heq, hpos', herr⟩ := (nest_rv k L k 0 initState (by omega) rfl).1 hok
      have hlen : C.doc.length = 2 * k + 1 := nestDoc_length k
      have hrt := readToken_eos C st'.cur (by rw [hlen]; omega)
      have hskip := skipCommentTokensF_noncomment (2 * k + 1) C st'.cur
        { type := TokType.endOfStream, offsetStart := st'.cur.pos, offsetEnd := st'.cur.pos }
        st'.cur hrt (show TokType.endOfStream ≠ TokType.comment from by decide)
      have hfe : C.feats.failIfExtra = false := rfl
      have hsr : C.feats.strictRoot = false := rfl
      have h1 : ¬ (C.feats.failIfExtra = true ∧
          (C.feats.strictRoot = true ∨
            ({ type := TokType.endOfStream, offsetStart := st'.cur.pos,
               offsetEnd := st'.cur.pos } : Token).type ≠ TokType.errorTok) ∧
          ({ type := TokType.endOfStream, offsetStart := st'.cur.pos,
             offsetEnd := st'.cur.pos } : Token).type ≠ TokType.endOfStream) := by
        intro hc
        exact hc.2.2 rfl
      have h2 : ¬ (C.feats.strictRoot = true ∧
          ¬ (v.isArray = true ∨ v.isObject = true)) := by
        intro hc
        rw [hsr] at hc
        exact Bool.false_ne_true hc.1
      rw [parseF]
      rw [show (2 * k + 2) = 2 * k + 1 + 1 from by omega]
      simp only [heq, exc_bind_ok]
      rw [parsePostF]
      simp only [hskip, exc_bind_ok, if_neg h1, if_neg h2]
      rfl
    · intro hbad
      have hfat := (nest_rv k L k 0 initState (by omega) rfl).2 hbad
      rw [parseF]
      simp only [hfat, exc_bind_err]
      rfl

/-- Witness for C1: the document `[1]` (depth 2) parses successfully
with stack limit 2 but aborts with the fatal stack-limit error with
stack limit 1; and the guard fires immediately for a fresh parse with
stack limit 0. -/
theorem C1_depth_guard_witness :
    resOk (parseF 4 { defaultFeatures with stackLimit := 2 } true (nestDoc 1)) = some true ∧
    resFatal (parseF 4 { defaultFeatures with stackLimit := 1 } true (nestDoc 1)) =
      some ("Exceeded stackLimit in readValue().") ∧
    readValueF 1 (mkCtx { defaultFeatures with stackLimit := 0 } true (bytes "1")) 1 initState =
      .error (.fatal ("Exceeded stackLimit in readValue().")) :=
  ⟨(C1_depth_guard.2 1 2).1 (by decide), (C1_depth_guard.2 1 1).2 (by decide),
    C1_depth_guard.1 0 (mkCtx { defaultFeatures with stackLimit := 0 } true (bytes "1")) 1
      initState (by decide)⟩
